import Mathlib

/-!
Verification of the RelationshipMap repository: a shallow embedding, in
Lean 4, of the viewport/interaction engine (pan-zoom, fit-to-content), the
client-side reconciliation and optimistic-mutation layer, the multi-base
sync client, and the Express persistence service with its mutation queue.

Conventions of the embedding:
* JavaScript numbers are modelled as exact rationals (`ℚ`); every claim
  about numeric behaviour is settled over exact arithmetic.
* JavaScript strings are Lean `String`s, but every string operation the
  source uses (`trim`, `toLowerCase`, `startsWith`, …) is re-implemented
  character-wise so that it evaluates by kernel reduction.
* A JavaScript value that may be `undefined`/`null`/not-a-string at a
  given field is modelled as an `Option`; `none` stands for
  "absent or not of the expected type".
* The module-level mutable references of the front end (the avatar cache,
  `preferredApiBase`, `hasLoadedRemote`, …) are threaded explicitly as
  state.
-/

namespace RelationshipMap

/-! ## JavaScript string primitives (re-implemented character-wise) -/

/-- Characters `String.prototype.trim` removes (the common whitespace set:
space, tab, line feed, carriage return, vertical tab, form feed,
no-break space, BOM). -/
def isJsWhitespace (c : Char) : Bool :=
  c = ' ' || c = '\t' || c = '\n' || c = '\r' || c = '\x0b' || c = '\x0c' ||
  c = ' ' || c = '﻿'

/-- JavaScript `String.prototype.trim`. -/
def jsTrim (s : String) : String :=
  ⟨((s.data.dropWhile isJsWhitespace).reverse.dropWhile isJsWhitespace).reverse⟩

/-- ASCII lower-casing of one character (the inputs the source lower-cases
are ASCII link-type names and URL hosts). -/
def jsToLowerChar (c : Char) : Char :=
  if 'A' ≤ c ∧ c ≤ 'Z' then Char.ofNat (c.toNat + 32) else c

/-- JavaScript `String.prototype.toLowerCase`, on ASCII. -/
def jsToLower (s : String) : String :=
  ⟨s.data.map jsToLowerChar⟩

/-- JavaScript `String.prototype.startsWith`. -/
def jsStartsWith (s pre : String) : Bool :=
  List.isPrefixOf pre.data s.data

/-- JavaScript `String.prototype.endsWith`. -/
def jsEndsWith (s suf : String) : Bool :=
  List.isPrefixOf suf.data.reverse s.data.reverse

/-- JavaScript `String.prototype.includes` for a single character. -/
def jsContainsChar (s : String) (c : Char) : Bool :=
  s.data.any (· = c)

/-! ## Link-type normalization (`normalizeLinkType`, `EDGE_STYLE_ALIASES`,
`EDGE_TYPE_STYLES` in the front end) -/

/-- One entry of `EDGE_TYPE_STYLES`. -/
structure EdgeStyle where
  label : String
  color : String
  dash : Option String
  curve : Bool
  bend : Option ℚ
  width : ℚ
  opacity : ℚ
deriving DecidableEq

/-- `EDGE_STYLE_ALIASES`: legacy spellings folded to canonical types. -/
def EDGE_STYLE_ALIASES (s : String) : Option String :=
  if s = "dashed" then some "trust"
  else if s = "curved" then some "mixed"
  else none

/-- `EDGE_TYPE_STYLES`: the closed style table keyed by canonical type. -/
def EDGE_TYPE_STYLES (s : String) : Option EdgeStyle :=
  if s = "trust" then
    some { label := "Trust issues", color := "#DC2626", dash := some "6 6",
           curve := false, bend := none, width := 2, opacity := 0.85 }
  else if s = "mixed" then
    some { label := "Mixed feelings", color := "#FACC15", dash := none,
           curve := true, bend := some 0.28, width := 2, opacity := 0.85 }
  else if s = "solid" then
    some { label := "Solid Terms", color := "#16A34A", dash := none,
           curve := false, bend := none, width := 2, opacity := 0.85 }
  else none

/-- `normalizeLinkType(value)`. The argument is `none` when the JavaScript
value is not a string (`typeof value !== "string"`). -/
def normalizeLinkType (value : Option String) : String :=
  match value with
  | none => "solid"
  | some s =>
    let normalized := jsToLower (jsTrim s)
    let aliased := (EDGE_STYLE_ALIASES normalized).getD normalized
    if (EDGE_TYPE_STYLES aliased).isSome then aliased else "solid"

/-! ## Geometry: `clamp`, `computeFitView`, `onWheel` (usePanZoom) -/

/-- `clamp(v, min, max) = Math.min(max, Math.max(min, v))`. -/
def clamp (v vmin vmax : ℚ) : ℚ := min vmax (max vmin v)

/-- A node as `computeFitView` reads it: position and optional radius
(`n.r || 36` treats an absent or zero radius as 36). -/
structure FitNode where
  x : ℚ
  y : ℚ
  r : Option ℚ
deriving DecidableEq

/-- The `{min,max}` scale limits object. -/
structure FitLimits where
  min : ℚ
  max : ℚ
deriving DecidableEq

/-- A viewport `{scale, tx, ty}`. -/
structure FitView where
  scale : ℚ
  tx : ℚ
  ty : ℚ
deriving DecidableEq

/-- `n.r || 36`: zero and absent radii are falsy and default to 36. -/
def nodeRadius (n : FitNode) : ℚ :=
  match n.r with
  | some v => if v = 0 then 36 else v
  | none => 36

/-- Minimum of `n.x - r` over the nodes. The source folds from `Infinity`;
over `ℚ` (which has no infinities) the same fold is seeded from the first
node's bounds — identical on the non-empty lists that reach it. -/
def bboxMinX : List FitNode → ℚ
  | [] => 0
  | n :: rest => rest.foldl (fun a m => Min.min a (m.x - nodeRadius m)) (n.x - nodeRadius n)

/-- Maximum of `n.x + r` over the nodes (see `bboxMinX`). -/
def bboxMaxX : List FitNode → ℚ
  | [] => 0
  | n :: rest => rest.foldl (fun a m => Max.max a (m.x + nodeRadius m)) (n.x + nodeRadius n)

/-- Minimum of `n.y - r` over the nodes (see `bboxMinX`). -/
def bboxMinY : List FitNode → ℚ
  | [] => 0
  | n :: rest => rest.foldl (fun a m => Min.min a (m.y - nodeRadius m)) (n.y - nodeRadius n)

/-- Maximum of `n.y + r` over the nodes (see `bboxMinX`). -/
def bboxMaxY : List FitNode → ℚ
  | [] => 0
  | n :: rest => rest.foldl (fun a m => Max.max a (m.y + nodeRadius m)) (n.y + nodeRadius n)

/-- `computeFitView(nodes, viewportW, viewportH, padding, limits)`:
degenerate guard first, then bounding box, scale clamped to the limits,
centering offsets. `width || 1` and `height || 1` guard the zero-size box. -/
def computeFitView (nodes : List FitNode) (viewportW viewportH padding : ℚ)
    (limits : FitLimits) : FitView :=
  if nodes.isEmpty = true ∨ viewportW ≤ 0 ∨ viewportH ≤ 0 then ⟨1, 0, 0⟩
  else
    let minX := bboxMinX nodes
    let maxX := bboxMaxX nodes
    let minY := bboxMinY nodes
    let maxY := bboxMaxY nodes
    let width := maxX - minX
    let height := maxY - minY
    let sx := (viewportW - padding * 2) / (if width = 0 then 1 else width)
    let sy := (viewportH - padding * 2) / (if height = 0 then 1 else height)
    let s := clamp (Min.min sx sy) limits.min limits.max
    let tx := padding + (viewportW - padding * 2 - width * s) / 2 - minX * s
    let ty := padding + (viewportH - padding * 2 - height * s) / 2 - minY * s
    ⟨s, tx, ty⟩

/-- The new viewport `onWheel` produces. -/
structure WheelView where
  newScale : ℚ
  ntx : ℚ
  nty : ℚ
deriving DecidableEq

/-- `onWheel` of `usePanZoom`: `cx, cy` are the cursor position relative to
the container, `deltaY` the wheel delta; `vmin, vmax` the configured scale
bounds, `(scale, tx, ty)` the current viewport. -/
def onWheel (vmin vmax scale tx ty cx cy deltaY : ℚ) : WheelView :=
  let delta := -deltaY
  let zoomIntensity : ℚ := 0.0015
  let newScale := clamp (scale * (1 + delta * zoomIntensity)) vmin vmax
  let wx := (cx - tx) / scale
  let wy := (cy - ty) / scale
  { newScale := newScale, ntx := cx - wx * newScale, nty := cy - wy * newScale }

/-! ## Server model (`server.js`)

The Express server keeps `state = { groups, nodes, links }` and serializes
every write through `enqueueMutation`: each queued mutator runs strictly
after the previous one settled (a failed predecessor is caught), reads the
then-current `state`, and on success `writeState` installs the new state.
Two concurrently enqueued mutations are therefore applied sequentially, the
second seeing the first's result (or the unchanged state when the first
threw). The handlers below are modelled as state-passing functions
returning the HTTP status; the file write itself is abstracted away. -/

/-- A node as the server stores it. -/
structure SNode where
  id : String
  label : String
  group : String
  x : ℚ
  y : ℚ
  description : String
  r : Option ℚ
  avatar : Option String
deriving DecidableEq

/-- A link as the server stores it. -/
structure SLink where
  id : String
  source : String
  target : String
  ty : String
deriving DecidableEq

/-- The server's `state` object; group values are opaque to every handler. -/
structure SState where
  groups : List (String × String)
  nodes : List SNode
  links : List SLink
deriving DecidableEq

/-- A `POST /nodes` request body; `none` models an absent field or one of
the wrong JavaScript type (the handler's `typeof`/`Number.isFinite` checks). -/
structure NodeBody where
  id : Option String
  label : Option String
  group : Option String
  x : Option ℚ
  y : Option ℚ
  description : Option String
  avatar : Option String
  r : Option ℚ

/-- `app.post('/nodes')`: validation, then the mutation-queue mutator that
rejects a duplicate id with 409 and otherwise appends the node. -/
def postNode (body : NodeBody) (st : SState) : Nat × SState :=
  match body.id, body.label, body.group, body.x, body.y with
  | some id, some label, some group, some x, some y =>
    let tid := jsTrim id
    let tlabel := jsTrim label
    let tgroup := jsTrim group
    if tid = "" ∨ tlabel = "" ∨ tgroup = "" then (400, st)
    else
      let node : SNode :=
        { id := tid, label := tlabel, group := tgroup, x := x, y := y,
          description := body.description.getD "",
          r := body.r,
          avatar := match body.avatar with
            | some a => if jsTrim a = "" then none else some (jsTrim a)
            | none => none }
      if st.nodes.any (fun n => n.id = node.id) then (409, st)
      else (201, { st with nodes := st.nodes ++ [node] })
  | _, _, _, _, _ => (400, st)

/-- First-match update of a node's description: the model of
`findIndex` + `slice` + in-place replacement in `app.patch('/nodes/:id')`;
`none` when no node has the id. -/
def updateDescriptionFirst (pid : String) (description : String) :
    List SNode → Option (List SNode)
  | [] => none
  | n :: rest =>
    if n.id = pid then some ({ n with description := description } :: rest)
    else (updateDescriptionFirst pid description rest).map (n :: ·)

/-- `app.patch('/nodes/:id')`: a non-string body description becomes `""`;
a missing node id throws `HttpError 404` inside the queued mutator, leaving
the state untouched; otherwise the first matching node's description is
replaced and the response is 200. -/
def patchNode (pid : String) (body : Option String) (st : SState) : Nat × SState :=
  let description := body.getD ""
  match updateDescriptionFirst pid description st.nodes with
  | none => (404, st)
  | some nodes => (200, { st with nodes := nodes })

/-- A request body passing `POST /nodes` validation: string id/label/group
with non-empty trims, finite numeric `x` and `y`. -/
def validNodeBody (b : NodeBody) : Prop :=
  (∃ s, b.id = some s ∧ jsTrim s ≠ "") ∧
  (∃ s, b.label = some s ∧ jsTrim s ≠ "") ∧
  (∃ s, b.group = some s ∧ jsTrim s ≠ "") ∧
  b.x.isSome = true ∧ b.y.isSome = true

/-- The trimmed id a valid body inserts under. -/
def bodyId (b : NodeBody) : String := jsTrim (b.id.getD "")

/-! ## Client model (the RelationshipMap front end)

`data = { groups, nodes, links }` plus the module/ref-level mutable state:
the `persistedAvatarById` cache, `hasLoadedRemote`, `usedFallbackData`.
Raw payload fields that may be absent or of the wrong JavaScript type are
`Option`s. `randomAvatar()` draws from the (non-empty) avatar pool; the
draw is an explicit oracle argument so the embedding stays a function. -/

/-- A client-side node; raw payload nodes and normalized nodes share this
shape (`none` = absent/non-string field). -/
structure CNode where
  id : Option String
  label : String
  group : String
  x : ℚ
  y : ℚ
  r : Option ℚ
  avatar : Option String
  description : Option String
deriving DecidableEq

/-- A group entry `{label, color}`. -/
structure CGroup where
  label : String
  color : Option String
deriving DecidableEq

/-- A client-side link; `ty` is the raw `type` value before normalization
(`none` = absent/non-string). -/
structure CLink where
  id : Option String
  source : String
  target : String
  ty : Option String
deriving DecidableEq

/-- The client's `data` state. -/
structure GraphData where
  groups : List (String × CGroup)
  nodes : List CNode
  links : List CLink
deriving DecidableEq

/-- An incoming server payload; `none` marks a `groups` that is not an
object and `nodes`/`links` that are not arrays. -/
structure Incoming where
  groups : Option (List (String × CGroup))
  nodes : Option (List CNode)
  links : Option (List CLink)
deriving DecidableEq

/-- `defaultAvatarById` (keyed by the JavaScript id value; `none` is the
absent/non-string key, which has no default). -/
def defaultAvatarById (id : Option String) : Option String :=
  match id with
  | none => none
  | some s =>
    if s = "main" then some "/avatars/main-guy.jpeg"
    else if s = "t1" then some "/avatars/ari.jpeg"
    else if s = "t2" then some "/avatars/moe.jpeg"
    else if s = "t3" then some "/avatars/ned.jpeg"
    else if s = "t4" then some "/avatars/lee.jpeg"
    else if s = "p1" then some "/avatars/ivy.jpeg"
    else if s = "p2" then some "/avatars/bud.jpeg"
    else if s = "s1" then some "/avatars/ada.jpeg"
    else if s = "s2" then some "/avatars/bo.jpeg"
    else if s = "s3" then some "/avatars/cy.jpeg"
    else none

/-- `avatarPool = Array.from(new Set(Object.values(defaultAvatarById)))`:
the ten default paths are pairwise distinct, so the set keeps them all. -/
def avatarPool : List String :=
  ["/avatars/main-guy.jpeg", "/avatars/ari.jpeg", "/avatars/moe.jpeg",
   "/avatars/ned.jpeg", "/avatars/lee.jpeg", "/avatars/ivy.jpeg",
   "/avatars/bud.jpeg", "/avatars/ada.jpeg", "/avatars/bo.jpeg",
   "/avatars/cy.jpeg"]

/-- `randomAvatar()`: `null` only when the pool is empty (it is not);
`rand` is the drawn pool element. -/
def randomAvatar (rand : String) : Option String :=
  if avatarPool.length > 0 then some rand else none

/-- `defaultAvatarById[node?.id] || randomAvatar()` (the default paths are
non-empty, hence truthy). -/
def fallbackAvatar (rand : String) (id : Option String) : Option String :=
  match defaultAvatarById id with
  | some d => some d
  | none => randomAvatar rand

/-- `resolveAvatar(node)`. -/
def resolveAvatar (rand : String) (n : CNode) : Option String :=
  match n.avatar with
  | some a => if jsTrim a = "" then fallbackAvatar rand n.id else some (jsTrim a)
  | none => fallbackAvatar rand n.id

/-- `applyNodeDefaults(node)`: resolve the avatar, default the description
to `""` when it is not a string. -/
def applyNodeDefaults (rand : String) (n : CNode) : CNode :=
  { n with avatar := resolveAvatar rand n,
           description := some (n.description.getD "") }

/-- The `persistedAvatarById` ref: node id (a JavaScript value; `none` is
the non-string key) to last-resolved avatar. -/
def AvatarCache := Option String → Option String

/-- `persistedAvatarById.current.set(k, v)`. -/
def cacheSet (c : AvatarCache) (k : Option String) (v : String) : AvatarCache :=
  fun q => if q = k then some v else c q

/-- The cache at session start. -/
def emptyCache : AvatarCache := fun _ => none

/-- `hasExplicitAvatar`: the raw node carries a non-blank avatar string. -/
def hasExplicitAvatar (n : CNode) : Bool :=
  match n.avatar with
  | some a => decide (jsTrim a ≠ "")
  | none => false

/-- One step of the node loop in `applyIncomingData`: apply defaults, then
record an explicit avatar in the cache; for a non-explicit (but truthy)
resolved avatar a truthy cached avatar wins, otherwise the resolved one is
cached. A falsy resolved avatar leaves node and cache as they are. -/
def processNode (rand : String) (c : AvatarCache) (n : CNode) : CNode × AvatarCache :=
  let normalized := applyNodeDefaults rand n
  match normalized.avatar with
  | some a =>
    if a = "" then (normalized, c)
    else if hasExplicitAvatar n then (normalized, cacheSet c n.id a)
    else
      match c n.id with
      | some cached =>
        if cached = "" then (normalized, cacheSet c n.id a)
        else ({ normalized with avatar := some cached }, c)
      | none => (normalized, cacheSet c n.id a)
  | none => (normalized, c)

/-- The node-list fold of `applyIncomingData`, threading the avatar cache;
`rnd i` is the random draw available to the node at position `i`. -/
def processNodes (rnd : Nat → String) : Nat → AvatarCache → List CNode →
    List CNode × AvatarCache
  | _, c, [] => ([], c)
  | i, c, n :: rest =>
    let p := processNode (rnd i) c n
    let q := processNodes rnd (i + 1) p.2 rest
    (p.1 :: q.1, q.2)

/-- The link mapping of `applyIncomingData`: entries without a string id
map to `null` and are filtered out; kept entries get a normalized type. -/
def normalizeIncomingLink (l : CLink) : Option CLink :=
  match l.id with
  | none => none
  | some _ => some { l with ty := some (normalizeLinkType l.ty) }

/-- `applyIncomingData(incoming)`: normalize groups, nodes (keeping only
string-id ones, after the cache pass) and links into the new `data`. -/
def applyIncomingData (rnd : Nat → String) (incoming : Incoming)
    (c : AvatarCache) : GraphData × AvatarCache :=
  let groups := incoming.groups.getD []
  let p := processNodes rnd 0 c (incoming.nodes.getD [])
  let nodes := p.1.filter (fun n => n.id.isSome)
  let links := (incoming.links.getD []).filterMap normalizeIncomingLink
  (⟨groups, nodes, links⟩, p.2)

/-- The string ids occurring in a raw node list. -/
def someIds (nodes : List CNode) : List String := nodes.filterMap (fun n => n.id)

/-- A random oracle that always draws from the avatar pool. -/
def validRnd (rnd : Nat → String) : Prop := ∀ i, rnd i ∈ avatarPool

/-- The cache records, for every string-id node of a reconciliation output,
exactly the (truthy) avatar that output displays. -/
def cacheAgrees (c : AvatarCache) (out : List CNode) : Prop :=
  ∀ n ∈ out, ∀ s, n.id = some s → ∃ a, n.avatar = some a ∧ a ≠ "" ∧ c (some s) = some a

/-- A payload whose node list repeats the id `"x"`, once without an avatar
and once with an explicit one (ids are not deduplicated anywhere). -/
def dupIdIncoming : Incoming :=
  ⟨some [], some [⟨some "x", "A", "g", 0, 0, none, none, none⟩,
                  ⟨some "x", "B", "g", 0, 0, none, some "pic", none⟩], some []⟩

/-- A random oracle that always draws the first pool element. -/
def constRnd : Nat → String := fun _ => "/avatars/main-guy.jpeg"

/-! ### Optimistic mutations (`handleAddNode`, `handleAddLink`,
`saveFocusedNotes`) -/

/-- `handleAddNode`'s optimistic insert: append the new node. -/
def addNodeOptimistic (d : GraphData) (node : CNode) : GraphData :=
  { d with nodes := d.nodes ++ [node] }

/-- `handleAddNode`'s rollback: drop every node with the generated id. -/
def addNodeRollback (d : GraphData) (id : String) : GraphData :=
  { d with nodes := d.nodes.filter (fun n => decide (n.id ≠ some id)) }

/-- `handleAddLink`'s optimistic insert: append the new link. -/
def addLinkOptimistic (d : GraphData) (link : CLink) : GraphData :=
  { d with links := d.links ++ [link] }

/-- `handleAddLink`'s rollback: drop every link with the generated id. -/
def addLinkRollback (d : GraphData) (id : String) : GraphData :=
  { d with links := d.links.filter (fun l => decide (l.id ≠ some id)) }

/-- `nodesById.get(k)`: the Map is rebuilt by iterating the node list with
`set`, so the *last* node with a given id wins. -/
def nodesByIdGet (nodes : List CNode) (k : String) : Option CNode :=
  nodes.reverse.find? (fun n => decide (n.id = some k))

/-- The pre-mutation snapshot `nodesById.get(focused)?.description || ""`
taken by `saveFocusedNotes` before its optimistic update. -/
def focusedPrevDescription (d : GraphData) (focused : String) : String :=
  match nodesByIdGet d.nodes focused with
  | some n => n.description.getD ""
  | none => ""

/-- The map `saveFocusedNotes` applies, both for the optimistic edit (with
the edited text) and for the rollback (with the snapshotted text). -/
def setFocusedNotes (d : GraphData) (focused text : String) : GraphData :=
  { d with nodes := d.nodes.map (fun n =>
      if n.id = some focused then { n with description := some text } else n) }

/-! ### The built-in demo content and `loadMap` (SyncClient.initialLoad) -/

/-- The in-file demo dataset (groups, ten nodes, nine links). -/
def demo : Incoming :=
  { groups := some
      [("team", ⟨"Competitors", some "#5B8DEF"⟩),
       ("planters", ⟨"Suppliers", some "#44C4A1"⟩),
       ("scientists", ⟨"Manufacturers", some "#FF9171"⟩),
       ("main", ⟨"The Main Guy", some "#9B7DFF"⟩)],
    nodes := some
      [{ id := some "main", label := "Noah", group := "main", x := 615, y := 304,
         r := some 56, avatar := some "/avatars/main-guy.jpeg",
         description := some "Noah-The ice seller who keeps the whole network running. Without him, Bud and Ivy wouldn't have a reason to supply ice, and ADA, Cy, Bo, and Lee wouldn't be moving as much product from the manufacturing side. He's at the center of the supply chain, managing deals, negotiating with suppliers, and figuring out how to stay ahead of competitors like Moe, Ari, and Ned." },
       { id := some "t1", label := "Ari", group := "team", x := 327, y := 203,
         r := none, avatar := some "/avatars/ari.jpeg",
         description := some "Ari - Ari runs a rival ice operation and loves to brag about outselling Noah, which drives Noah crazy; their rivalry fuels most of Noah's motivation to outdo everyone else." },
       { id := some "t2", label := "Moe", group := "team", x := 412, y := 143,
         r := none, avatar := some "/avatars/moe.jpeg",
         description := some "Mo - Noah and Moe are best friends, but their friendship is complicated by business — Moe is technically Noah's competitor, running his own ice business on the other side of town. They respect each other's hustle but quietly keep an eye on each other's moves." },
       { id := some "t3", label := "Ned", group := "team", x := 505, y := 137,
         r := none, avatar := some "/avatars/ned.jpeg",
         description := some "Ned- Ned is another competitor who once tried to poach Noah's best supplier, leaving Noah furious and determined never to trust him again." },
       { id := some "t4", label := "Lee", group := "team", x := 292, y := 663,
         r := none, avatar := some "/avatars/lee.jpeg",
         description := some "Lee - Bo and Lee are inseparable co-workers who grew up learning the trade together, and they have a reputation for getting shipments out faster than anyone else." },
       { id := some "p1", label := "Ivy", group := "planters", x := 790, y := 203,
         r := none, avatar := some "/avatars/ivy.jpeg",
         description := some "Ivy - Ivy is another supplier for Noah, and while their working relationship is polite, Noah wishes Ivy were more open and collaborative about new ideas." },
       { id := some "p2", label := "Bud", group := "planters", x := 875, y := 298,
         r := none, avatar := some "/avatars/bud.jpeg",
         description := some "Bud - Noah relies on Bud as one of his main suppliers, and though they're only casually friendly, Noah appreciates that Bud always delivers on time and keeps things professional." },
       { id := some "s1", label := "Ada", group := "scientists", x := 457, y := 521,
         r := none, avatar := some "/avatars/ada.jpeg",
         description := some "Ada - Noah has bad blood with ADA, one of the manufacturers — she once shorted him on a shipment and publicly called him out over it, so he refuses to work with her unless absolutely necessary." },
       { id := some "s2", label := "Bo", group := "scientists", x := 457, y := 663,
         r := none, avatar := some "/avatars/bo.jpeg",
         description := some "Bo - Ada and Bo are best friends on the manufacturing floor, often teaming up to solve problems and gossip about the sellers' drama." },
       { id := some "s3", label := "Cy", group := "scientists", x := 615, y := 520,
         r := none, avatar := some "/avatars/cy.jpeg",
         description := some "Cy - Ada and Cy work together as part of the manufacturing team, exchanging casual banter on the job but mostly focusing on production." }],
    links := some
      [⟨some "l1", "t1", "main", some "trust"⟩,
       ⟨some "l2", "t3", "main", some "trust"⟩,
       ⟨some "l3", "t4", "s2", some "solid"⟩,
       ⟨some "l4", "p1", "main", some "mixed"⟩,
       ⟨some "l5", "p2", "main", some "mixed"⟩,
       ⟨some "l6", "s1", "s2", some "solid"⟩,
       ⟨some "l7", "s1", "main", some "trust"⟩,
       ⟨some "l8", "t2", "main", some "solid"⟩,
       ⟨some "l9", "s3", "s1", some "mixed"⟩] }

/-- The ref/state `loadMap` reads and writes. -/
structure ClientState where
  data : GraphData
  cache : AvatarCache
  hasLoadedRemote : Bool
  usedFallbackData : Bool
  hasAutoFitted : Bool
  lastError : String

/-- How one `loadMap` fetch ended. -/
inductive LoadOutcome where
  | success (json : Incoming)
  | failure
  | aborted

/-- One completed `loadMap` call: its `allowFallback` option, the random
draws available during it, and how its fetch ended. The in-flight guard
(`inFlightFetch`) keeps calls sequential, so a session is a list of these. -/
structure LoadAttempt where
  allowFallback : Bool
  rnd : Nat → String
  outcome : LoadOutcome

/-- The read-only/offline banner set when demo content is shown. -/
def fallbackMessage : String :=
  "Unable to reach the live API. Showing demo data only; changes will not be saved until the connection is restored."

/-- `loadMap`: success resets the fallback/auto-fit flags when demo data was
showing, applies the payload, marks the session as having loaded real data
and clears the error; an abort changes nothing; a failure applies the demo
content exactly when fallback is allowed and no real load ever succeeded,
and otherwise changes nothing. -/
def loadStep (s : ClientState) (a : LoadAttempt) : ClientState :=
  match a.outcome with
  | .success json =>
    let s1 := if s.usedFallbackData then
        { s with hasAutoFitted := false, usedFallbackData := false } else s
    let p := applyIncomingData a.rnd json s1.cache
    { s1 with data := p.1, cache := p.2, hasLoadedRemote := true, lastError := "" }
  | .aborted => s
  | .failure =>
    if a.allowFallback && !s.hasLoadedRemote then
      let p := applyIncomingData a.rnd demo s.cache
      { s with
          data := p.1
          cache := p.2
          usedFallbackData := true
          lastError := fallbackMessage }
    else s

/-- The state at session start. -/
def initialClientState : ClientState :=
  ⟨⟨[], [], []⟩, emptyCache, false, false, false, ""⟩

/-- The session state after a list of completed load attempts. -/
def runTrace (tr : List LoadAttempt) : ClientState :=
  tr.foldl loadStep initialClientState

def isSuccess : LoadOutcome → Bool
  | .success _ => true
  | _ => false

def isFailure : LoadOutcome → Bool
  | .failure => true
  | _ => false

/-- The state produced by the demo-fallback branch of `loadMap`. -/
def applyDemoFallback (s : ClientState) (rnd : Nat → String) : ClientState :=
  { s with data := (applyIncomingData rnd demo s.cache).1,
           cache := (applyIncomingData rnd demo s.cache).2,
           usedFallbackData := true, lastError := fallbackMessage }

/-! ### SyncClient: base sanitization, candidate order, fetch retry
(`sanitizeBase`, `API_BASE_CANDIDATES`, `getApiBaseAttemptOrder`,
`buildUrlForBase`, `fetchFromApi`) -/

/-- `replace(/\/+$/, "")`. -/
def stripTrailingSlashes (s : String) : String :=
  ⟨(s.data.reverse.dropWhile (· = '/')).reverse⟩

/-- `replace(/^\/+/, "")`. -/
def stripLeadingSlashes (s : String) : String :=
  ⟨s.data.dropWhile (· = '/')⟩

/-- After the leading letter of `/^[a-z][a-z0-9+.-]*:\/\//i`: a run of
scheme characters ended by `"://"` (`:` is not a scheme character, so the
first `:` must start `"://"` exactly as in the regex). -/
def schemeRest : List Char → Bool
  | ':' :: '/' :: '/' :: _ => true
  | c :: rest =>
    (c.isAlpha || c.isDigit || c = '+' || c = '.' || c = '-') && schemeRest rest
  | [] => false

/-- `/^[a-z][a-z0-9+.-]*:\/\//i.test(s)`. -/
def hasSchemePrefix (s : String) : Bool :=
  match s.data with
  | c :: rest => c.isAlpha && schemeRest rest
  | [] => false

/-- `/^localhost(?::|\/|\?|#|$)/.test(lower)`. -/
def isLocalhostString (s : String) : Bool :=
  match s.data with
  | 'l' :: 'o' :: 'c' :: 'a' :: 'l' :: 'h' :: 'o' :: 's' :: 't' :: rest =>
    match rest with
    | [] => true
    | c :: _ => c = ':' || c = '/' || c = '?' || c = '#'
  | _ => false

/-- Consume one-or-more digits (`\d+`); `none` when the list does not start
with a digit. -/
def dropDigits1 : List Char → Option (List Char)
  | c :: rest => if c.isDigit then some (rest.dropWhile Char.isDigit) else none
  | [] => none

/-- Consume `\.\d+`. -/
def dotDigits : List Char → Option (List Char)
  | '.' :: rest => dropDigits1 rest
  | _ => none

/-- `(?:\/|$)`. -/
def slashOrEnd : List Char → Bool
  | [] => true
  | c :: _ => c = '/'

/-- `/^\d+\.\d+\.\d+\.\d+(?::\d+)?(?:\/|$)/.test(s)`. -/
def isIpAddressString (s : String) : Bool :=
  match dropDigits1 s.data with
  | none => false
  | some r1 =>
  match dotDigits r1 with
  | none => false
  | some r2 =>
  match dotDigits r2 with
  | none => false
  | some r3 =>
  match dotDigits r3 with
  | none => false
  | some r4 =>
  match r4 with
  | ':' :: rest =>
    match dropDigits1 rest with
    | none => false
    | some r5 => slashOrEnd r5
  | _ => slashOrEnd r4

/-- `/:\d+/.test(s)`: a colon directly followed by a digit, anywhere. -/
def hasPortPattern : List Char → Bool
  | ':' :: c :: rest => c.isDigit || hasPortPattern (c :: rest)
  | _ :: rest => hasPortPattern rest
  | [] => false

/-- `sanitizeBase(value)` (its `typeof` guard is vacuous here: every call
site passes a string). -/
def sanitizeBase (value : String) : String :=
  let trimmed := jsTrim value
  if trimmed = "" then ""
  else if hasSchemePrefix trimmed || jsStartsWith trimmed "//" then
    stripTrailingSlashes trimmed
  else if jsStartsWith trimmed "/" then
    stripTrailingSlashes ("/" ++ stripLeadingSlashes trimmed)
  else
    let lower := jsToLower trimmed
    let isLocalHost := isLocalhostString lower
    let isIpAddress := isIpAddressString trimmed
    let looksLikeHost := jsContainsChar trimmed '.' || jsContainsChar trimmed ':' ||
      isLocalHost || isIpAddress
    if !looksLikeHost then
      stripTrailingSlashes ("/" ++ stripLeadingSlashes trimmed)
    else
      let hasExplicitPort := hasPortPattern trimmed.data
      let scheme :=
        if isLocalHost || isIpAddress || hasExplicitPort then "http" else "https"
      stripTrailingSlashes (scheme ++ "://" ++ trimmed)

/-- `normalizeApiPath(path)`. -/
def normalizeApiPath (path : String) : String :=
  let trimmed := jsTrim path
  if trimmed = "" then ""
  else
    let sanitized := stripLeadingSlashes trimmed
    if sanitized = "" then "/" else "/" ++ sanitized

/-- `buildUrlForBase(base, path)`. -/
def buildUrlForBase (base path : String) : String :=
  let normalizedPath := normalizeApiPath path
  if base = "" then (if normalizedPath = "" then "/" else normalizedPath)
  else if normalizedPath = "" ∨ normalizedPath = "/" then base ++ "/"
  else base ++ normalizedPath

/-- First-occurrence deduplication with an accumulator: the JavaScript
`Set` keeps insertion order. -/
def dedupAppend (acc : List String) : List String → List String
  | [] => acc
  | b :: rest => if b ∈ acc then dedupAppend acc rest else dedupAppend (acc ++ [b]) rest

/-- `API_BASE_CANDIDATES`, parameterized by the resolved `API_URL` and the
window origin (`none` outside a browser): the primary base, its `/api`
variant unless the primary already ends in `/api` (case-insensitively),
the origin, then the empty (relative) base. -/
def buildApiBaseCandidates (apiUrl : String) (origin : Option String) : List String :=
  let primary := sanitizeBase apiUrl
  let l1 := if primary = "" then [] else
    if jsEndsWith (jsToLower primary) "/api" then [primary]
    else [primary, sanitizeBase (primary ++ "/api")]
  let l2 := match origin with
    | some o => if sanitizeBase o = "" then [] else [sanitizeBase o]
    | none => []
  dedupAppend [] (l1 ++ l2 ++ [""])

/-- `getApiBaseAttemptOrder()`: the sanitized preferred base first, then
the sanitized configured candidates, first occurrences kept. -/
def getApiBaseAttemptOrder (preferred : String) (candidates : List String) :
    List String :=
  dedupAppend [] (sanitizeBase preferred :: candidates.map sanitizeBase)

/-- The observable behaviour of `fetch` at one base for one request. -/
inductive FetchOutcome where
  | ok
  | httpFail (status : Nat)
  | netErr (msg : String)
  | abortErr
deriving DecidableEq

/-- What `fetchFromApi` records in `lastError`. -/
inductive FetchErr where
  | http (status : Nat) (url : String)
  | net (msg : String)
deriving DecidableEq

/-- How `fetchFromApi` ends: return the winning base's response, re-throw
an `AbortError`, or throw the aggregated last error. -/
inductive FetchResult where
  | success (base : String)
  | aborted
  | failed (lastError : Option FetchErr)
deriving DecidableEq

/-- The retry loop of `fetchFromApi` over the attempt order; `oracle b` is
how the network behaves at base `b` for this request. A non-OK response or
a non-abort network error records `lastError` and advances; an
`AbortError` is re-thrown at once. -/
def fetchAttempts (oracle : String → FetchOutcome) (path : String) :
    List String → Option FetchErr → FetchResult
  | [], lastError => .failed lastError
  | b :: rest, lastError =>
    match oracle b with
    | .ok => .success b
    | .httpFail status =>
      fetchAttempts oracle path rest (some (.http status (buildUrlForBase b path)))
    | .netErr msg => fetchAttempts oracle path rest (some (.net msg))
    | .abortErr => .aborted

/-- `fetchFromApi(path)`: try the attempt order; on success the preferred
base becomes the winning base (sticky routing), otherwise it is unchanged. -/
def fetchFromApi (oracle : String → FetchOutcome) (path preferred : String)
    (candidates : List String) : FetchResult × String :=
  match fetchAttempts oracle path (getApiBaseAttemptOrder preferred candidates) none with
  | .success b => (.success b, b)
  | r => (r, preferred)

/-- An outcome on which the loop advances to the next candidate. -/
def isAdvance (o : FetchOutcome) : Prop :=
  (∃ status, o = .httpFail status) ∨ (∃ msg, o = .netErr msg)

/-- The `lastError` after attempting every listed base. -/
def lastErrorAfter (oracle : String → FetchOutcome) (path : String)
    (l : List String) (le : Option FetchErr) : Option FetchErr :=
  l.foldl (fun acc b =>
    match oracle b with
    | .httpFail status => some (.http status (buildUrlForBase b path))
    | .netErr msg => some (.net msg)
    | _ => acc) le

/-! ### Basic clamp lemmas -/

theorem clamp_le (v vmin vmax : ℚ) : clamp v vmin vmax ≤ vmax := by
  simp [clamp]

theorem le_clamp (v vmin vmax : ℚ) (h : vmin ≤ vmax) : vmin ≤ clamp v vmin vmax := by
  simp [clamp, le_max_iff, h]

/-! ### C1: anchor-preserving zoom -/

/-- C1: for every viewport `(scale, tx, ty)` with the configured positive
lower scale bound `vmin ≤ scale ≤ vmax`, every cursor position `(cx, cy)`
and every wheel delta, `onWheel` keeps the world point under the cursor
fixed: `(cx - ntx)/newScale = (cx - tx)/scale` and likewise in `y`,
including when the new scale is clamped at either bound. -/
theorem onWheel_preserves_cursor_world_point
    (vmin vmax scale tx ty cx cy deltaY : ℚ)
    (hmin : 0 < vmin) (hlo : vmin ≤ scale) (hhi : scale ≤ vmax) :
    (cx - (onWheel vmin vmax scale tx ty cx cy deltaY).ntx)
        / (onWheel vmin vmax scale tx ty cx cy deltaY).newScale
      = (cx - tx) / scale ∧
    (cy - (onWheel vmin vmax scale tx ty cx cy deltaY).nty)
        / (onWheel vmin vmax scale tx ty cx cy deltaY).newScale
      = (cy - ty) / scale := by
  have hs : vmin ≤ vmax := le_trans hlo hhi
  have hge : vmin ≤ clamp (scale * (1 + -deltaY * (0.0015 : ℚ))) vmin vmax :=
    le_clamp _ _ _ hs
  have hne : clamp (scale * (1 + -deltaY * (0.0015 : ℚ))) vmin vmax ≠ 0 :=
    ne_of_gt (lt_of_lt_of_le hmin hge)
  refine ⟨?_, ?_⟩ <;>
  · simp only [onWheel]
    rw [sub_sub_cancel, mul_div_assoc, div_self hne, mul_one]

/-- C1 witness: the anchor property at a concrete zoom step
(bounds 0.5–2.5, scale 1, viewport offset (3,4), cursor (10,20),
wheel delta −100). -/
theorem onWheel_preserves_cursor_world_point_witness :
    (10 - (onWheel (1/2) (5/2) 1 3 4 10 20 (-100)).ntx)
        / (onWheel (1/2) (5/2) 1 3 4 10 20 (-100)).newScale
      = (10 - 3) / 1 ∧
    (20 - (onWheel (1/2) (5/2) 1 3 4 10 20 (-100)).nty)
        / (onWheel (1/2) (5/2) 1 3 4 10 20 (-100)).newScale
      = (20 - 4) / 1 :=
  onWheel_preserves_cursor_world_point (1/2) (5/2) 1 3 4 10 20 (-100)
    (by norm_num) (by norm_num) (by norm_num)

/-! ### C10: the link-type normalization is total and idempotent -/

theorem normalizeLinkType_some_mem (s : String) :
    normalizeLinkType (some s) = "trust" ∨ normalizeLinkType (some s) = "mixed" ∨
    normalizeLinkType (some s) = "solid" := by
  simp only [normalizeLinkType]
  by_cases h1 : jsToLower (jsTrim s) = "dashed"
  · rw [h1]; decide
  · by_cases h2 : jsToLower (jsTrim s) = "curved"
    · rw [h2]; decide
    · by_cases h3 : jsToLower (jsTrim s) = "trust"
      · rw [h3]; decide
      · by_cases h4 : jsToLower (jsTrim s) = "mixed"
        · rw [h4]; decide
        · by_cases h5 : jsToLower (jsTrim s) = "solid"
          · rw [h5]; decide
          · simp [EDGE_STYLE_ALIASES, EDGE_TYPE_STYLES, h1, h2, h3, h4, h5]

/-- C10: `normalizeLinkType` is total over arbitrary JavaScript inputs
(`none` models a non-string value) and lands in the closed enum
`{trust, mixed, solid}`; the legacy spellings `dashed` and `curved` map to
`trust` and `mixed`; any value whose trimmed lower-casing is not one of the
five recognized spellings maps to `solid`; and the function is idempotent. -/
theorem normalizeLinkType_total_and_idempotent :
    (∀ v : Option String,
      normalizeLinkType v = "trust" ∨ normalizeLinkType v = "mixed" ∨
      normalizeLinkType v = "solid") ∧
    normalizeLinkType (some "dashed") = "trust" ∧
    normalizeLinkType (some "curved") = "mixed" ∧
    (∀ s : String,
      jsToLower (jsTrim s) ∉ (["trust", "mixed", "solid", "dashed", "curved"] : List String) →
      normalizeLinkType (some s) = "solid") ∧
    (∀ v : Option String,
      normalizeLinkType (some (normalizeLinkType v)) = normalizeLinkType v) := by
  have total : ∀ v : Option String,
      normalizeLinkType v = "trust" ∨ normalizeLinkType v = "mixed" ∨
      normalizeLinkType v = "solid" := by
    intro v
    match v with
    | none => right; right; rfl
    | some s => exact normalizeLinkType_some_mem s
  refine ⟨total, by decide, by decide, ?_, ?_⟩
  · intro s hmem
    simp only [List.mem_cons, List.not_mem_nil, or_false, not_or] at hmem
    obtain ⟨h3, h4, h5, h1, h2⟩ := hmem
    simp [normalizeLinkType, EDGE_STYLE_ALIASES, EDGE_TYPE_STYLES, h1, h2, h3, h4, h5]
  · intro v
    rcases total v with h | h | h <;> rw [h] <;> decide

/-- C10 witness: an unrecognized spelling normalizes to `solid`. -/
theorem normalizeLinkType_total_and_idempotent_witness :
    normalizeLinkType (some "weird") = "solid" :=
  normalizeLinkType_total_and_idempotent.2.2.2.1 "weird" (by decide)

/-! ### C8: computeFitView scale bounds and degenerate behaviour -/

/-- C8 counterexample: the claim asserts `min ≤ scale ≤ max` for *every*
input including the degenerate ones, but a degenerate input returns the
identity view with scale 1, which violates the bound for `limits = {2, 3}`. -/
theorem computeFitView_scale_counterexample :
    computeFitView [] 500 400 80 ⟨2, 3⟩ = ⟨1, 0, 0⟩ ∧
    ¬ ((2 : ℚ) ≤ (computeFitView [] 500 400 80 ⟨2, 3⟩).scale) := by
  constructor
  · rfl
  · show ¬ ((2 : ℚ) ≤ (1 : ℚ))
    norm_num

/-- C8 (amended): for non-degenerate input (non-empty nodes, positive
viewport) the returned scale is clamped into `[limits.min, limits.max]`
whenever `limits.min ≤ limits.max`; every degenerate input (no nodes or a
non-positive viewport dimension) returns the identity view `{1, 0, 0}`
(whose scale lies in the limits only when `min ≤ 1 ≤ max`). -/
theorem computeFitView_scale_clamped (nodes : List FitNode)
    (viewportW viewportH padding : ℚ) (limits : FitLimits)
    (hlim : limits.min ≤ limits.max) :
    (nodes ≠ [] → 0 < viewportW → 0 < viewportH →
      limits.min ≤ (computeFitView nodes viewportW viewportH padding limits).scale ∧
      (computeFitView nodes viewportW viewportH padding limits).scale ≤ limits.max) ∧
    (nodes = [] ∨ viewportW ≤ 0 ∨ viewportH ≤ 0 →
      computeFitView nodes viewportW viewportH padding limits = ⟨1, 0, 0⟩) := by
  constructor
  · intro hne hw hh
    have hcond : ¬ (nodes.isEmpty = true ∨ viewportW ≤ 0 ∨ viewportH ≤ 0) := by
      push_neg
      exact ⟨by simpa [List.isEmpty_iff] using hne, hw, hh⟩
    unfold computeFitView
    rw [if_neg hcond]
    exact ⟨le_clamp _ _ _ hlim, clamp_le _ _ _⟩
  · intro hdeg
    have hcond : nodes.isEmpty = true ∨ viewportW ≤ 0 ∨ viewportH ≤ 0 := by
      rcases hdeg with h | h | h
      · exact Or.inl (by simp [h])
      · exact Or.inr (Or.inl h)
      · exact Or.inr (Or.inr h)
    unfold computeFitView
    rw [if_pos hcond]

/-- C8 witness: the amended bound at the spec's concrete example, a single
node at the origin with radius 10 in a 500×400 viewport (limits ½–2). -/
theorem computeFitView_scale_clamped_witness :
    (1 / 2 : ℚ) ≤ (computeFitView [⟨0, 0, some 10⟩] 500 400 80 ⟨1/2, 2⟩).scale ∧
    (computeFitView [⟨0, 0, some 10⟩] 500 400 80 ⟨1/2, 2⟩).scale ≤ 2 :=
  (computeFitView_scale_clamped [⟨0, 0, some 10⟩] 500 400 80 ⟨1/2, 2⟩
    (by norm_num)).1 (by simp) (by norm_num) (by norm_num)

/-! ### C2: duplicate inserts through the mutation queue -/

/-- C2: two insert-node requests with the same (trimmed) id, enqueued
through the mutation queue against a state not containing that id, are
applied sequentially; the first receives 201, the second 409, the second
leaves the state unchanged, and the final state holds exactly one node with
that id. The bodies are arbitrary (so both enqueue orders are instances). -/
theorem mutation_queue_duplicate_insert (b1 b2 : NodeBody) (st : SState)
    (hv1 : validNodeBody b1) (hv2 : validNodeBody b2)
    (hsame : bodyId b1 = bodyId b2)
    (hfresh : ∀ n ∈ st.nodes, n.id ≠ bodyId b1) :
    (postNode b1 st).1 = 201 ∧
    (postNode b2 (postNode b1 st).2).1 = 409 ∧
    (postNode b2 (postNode b1 st).2).2 = (postNode b1 st).2 ∧
    ((postNode b1 st).2.nodes.countP (fun n => n.id = bodyId b1)) = 1 := by
  obtain ⟨⟨s1, hs1, hs1ne⟩, ⟨l1, hl1, hl1ne⟩, ⟨g1, hg1, hg1ne⟩, hx1, hy1⟩ := hv1
  obtain ⟨⟨s2, hs2, hs2ne⟩, ⟨l2, hl2, hl2ne⟩, ⟨g2, hg2, hg2ne⟩, hx2, hy2⟩ := hv2
  obtain ⟨x1, hx1⟩ := Option.isSome_iff_exists.mp hx1
  obtain ⟨y1, hy1⟩ := Option.isSome_iff_exists.mp hy1
  obtain ⟨x2, hx2⟩ := Option.isSome_iff_exists.mp hx2
  obtain ⟨y2, hy2⟩ := Option.isSome_iff_exists.mp hy2
  have hb1 : bodyId b1 = jsTrim s1 := by simp [bodyId, hs1]
  have hb2 : bodyId b2 = jsTrim s2 := by simp [bodyId, hs2]
  have hany1 : st.nodes.any (fun n => n.id = jsTrim s1) = false := by
    simp only [List.any_eq_false, decide_eq_true_eq]
    intro n hn
    have := hfresh n hn
    rwa [hb1] at this
  have hstep1 : postNode b1 st =
      (201, { st with nodes := st.nodes ++
        [{ id := jsTrim s1, label := jsTrim l1, group := jsTrim g1, x := x1, y := y1,
           description := b1.description.getD "",
           r := b1.r,
           avatar := match b1.avatar with
             | some a => if jsTrim a = "" then none else some (jsTrim a)
             | none => none }] }) := by
    simp only [postNode, hs1, hl1, hg1, hx1, hy1]
    rw [if_neg (by simp [hs1ne, hl1ne, hg1ne]), if_neg (by simp [hany1])]
  have hsame' : jsTrim s2 = jsTrim s1 := by rw [← hb1, ← hb2, hsame]
  have hstep2 : postNode b2 (postNode b1 st).2 = (409, (postNode b1 st).2) := by
    rw [hstep1]
    simp only [postNode, hs2, hl2, hg2, hx2, hy2]
    rw [if_neg (by simp [hs2ne, hl2ne, hg2ne])]
    rw [if_pos (by simp [List.any_append, hsame'])]
  refine ⟨by rw [hstep1], by rw [hstep2], by rw [hstep2], ?_⟩
  rw [hstep1, hb1]
  simp only [List.countP_append]
  have h0 : st.nodes.countP (fun n => n.id = jsTrim s1) = 0 := by
    rw [List.countP_eq_zero]
    intro n hn
    simpa [hb1] using hfresh n hn
  simp [h0]

/-- C2 witness: the duplicate-insert outcome at a concrete pair of requests
against the empty state. -/
theorem mutation_queue_duplicate_insert_witness :
    (postNode ⟨some "x1", some "X", some "team", some 10, some 10, none, none, none⟩
      ⟨[], [], []⟩).1 = 201 ∧
    (postNode ⟨some " x1 ", some "Y", some "team", some 3, some 4, none, none, none⟩
      (postNode ⟨some "x1", some "X", some "team", some 10, some 10, none, none, none⟩
        ⟨[], [], []⟩).2).1 = 409 ∧
    (postNode ⟨some " x1 ", some "Y", some "team", some 3, some 4, none, none, none⟩
      (postNode ⟨some "x1", some "X", some "team", some 10, some 10, none, none, none⟩
        ⟨[], [], []⟩).2).2 =
      (postNode ⟨some "x1", some "X", some "team", some 10, some 10, none, none, none⟩
        ⟨[], [], []⟩).2 ∧
    ((postNode ⟨some "x1", some "X", some "team", some 10, some 10, none, none, none⟩
      ⟨[], [], []⟩).2.nodes.countP
        (fun n => n.id = bodyId ⟨some "x1", some "X", some "team", some 10, some 10,
          none, none, none⟩)) = 1 :=
  mutation_queue_duplicate_insert
    ⟨some "x1", some "X", some "team", some 10, some 10, none, none, none⟩
    ⟨some " x1 ", some "Y", some "team", some 3, some 4, none, none, none⟩
    ⟨[], [], []⟩
    ⟨⟨"x1", rfl, by decide⟩, ⟨"X", rfl, by decide⟩, ⟨"team", rfl, by decide⟩, rfl, rfl⟩
    ⟨⟨" x1 ", rfl, by decide⟩, ⟨"Y", rfl, by decide⟩, ⟨"team", rfl, by decide⟩, rfl, rfl⟩
    (by decide)
    (by simp)

/-! ### C9: PATCH /nodes/:id -/

theorem updateDescriptionFirst_eq_none (pid d : String) (l : List SNode) :
    updateDescriptionFirst pid d l = none ↔ ∀ n ∈ l, n.id ≠ pid := by
  induction l with
  | nil => simp [updateDescriptionFirst]
  | cons n rest ih =>
    by_cases h : n.id = pid
    · simp [updateDescriptionFirst, h]
    · simp [updateDescriptionFirst, h, ih]

theorem updateDescriptionFirst_append (pid d : String) (pre post : List SNode)
    (n : SNode) (hpre : ∀ m ∈ pre, m.id ≠ pid) (hn : n.id = pid) :
    updateDescriptionFirst pid d (pre ++ n :: post) =
      some (pre ++ { n with description := d } :: post) := by
  induction pre with
  | nil => simp [updateDescriptionFirst, hn]
  | cons m rest ih =>
    have hm : m.id ≠ pid := hpre m (by simp)
    have : ∀ m' ∈ rest, m'.id ≠ pid := fun m' hm' => hpre m' (by simp [hm'])
    simp [updateDescriptionFirst, hm, ih this]

/-- C9: `PATCH /nodes/{id}` returns 404 exactly when no stored node has the
id, and then leaves the whole stored state unchanged; when a node with the
id exists (decomposing the node list around its first occurrence), the
response is 200 and the stored state changes only in that node's
description field. -/
theorem patch_node_semantics (pid : String) (body : Option String) (st : SState) :
    ((patchNode pid body st).1 = 404 ↔ ∀ n ∈ st.nodes, n.id ≠ pid) ∧
    ((∀ n ∈ st.nodes, n.id ≠ pid) → (patchNode pid body st).2 = st) ∧
    (∀ pre n post, st.nodes = pre ++ n :: post → (∀ m ∈ pre, m.id ≠ pid) →
      n.id = pid →
      (patchNode pid body st).1 = 200 ∧
      (patchNode pid body st).2 =
        { st with nodes := pre ++ { n with description := body.getD "" } :: post }) := by
  refine ⟨?_, ?_, ?_⟩
  · constructor
    · intro h404
      rw [← updateDescriptionFirst_eq_none pid (body.getD "") st.nodes]
      rcases hu : updateDescriptionFirst pid (body.getD "") st.nodes with _ | nodes
      · rfl
      · simp [patchNode, hu] at h404
    · intro hnone
      have hu := (updateDescriptionFirst_eq_none pid (body.getD "") st.nodes).mpr hnone
      simp [patchNode, hu]
  · intro hnone
    have hu := (updateDescriptionFirst_eq_none pid (body.getD "") st.nodes).mpr hnone
    simp [patchNode, hu]
  · intro pre n post hdec hpre hn
    have hu : updateDescriptionFirst pid (body.getD "") st.nodes =
        some (pre ++ { n with description := body.getD "" } :: post) := by
      rw [hdec]
      exact updateDescriptionFirst_append pid (body.getD "") pre post n hpre hn
    constructor
    · simp [patchNode, hu]
    · simp [patchNode, hu]

/-- C9 witness: against a one-node store, patching a missing id returns 404
and changes nothing; patching the present id returns 200 and rewrites only
that node's description. -/
theorem patch_node_semantics_witness :
    ((patchNode "zzz" (some "hi")
        ⟨[("g", "G")], [⟨"a", "A", "g", 1, 2, "old", none, none⟩], []⟩).1 = 404 ∧
     (patchNode "zzz" (some "hi")
        ⟨[("g", "G")], [⟨"a", "A", "g", 1, 2, "old", none, none⟩], []⟩).2 =
        ⟨[("g", "G")], [⟨"a", "A", "g", 1, 2, "old", none, none⟩], []⟩) ∧
    ((patchNode "a" (some "hi")
        ⟨[("g", "G")], [⟨"a", "A", "g", 1, 2, "old", none, none⟩], []⟩).1 = 200 ∧
     (patchNode "a" (some "hi")
        ⟨[("g", "G")], [⟨"a", "A", "g", 1, 2, "old", none, none⟩], []⟩).2 =
        ⟨[("g", "G")], [⟨"a", "A", "g", 1, 2, "hi", none, none⟩], []⟩) :=
  ⟨⟨(patch_node_semantics "zzz" (some "hi") _).1.mpr (by decide),
    (patch_node_semantics "zzz" (some "hi") _).2.1 (by decide)⟩,
   ⟨((patch_node_semantics "a" (some "hi")
        ⟨[("g", "G")], [⟨"a", "A", "g", 1, 2, "old", none, none⟩], []⟩).2.2
      [] ⟨"a", "A", "g", 1, 2, "old", none, none⟩ [] rfl (by simp) rfl).1,
    ((patch_node_semantics "a" (some "hi")
        ⟨[("g", "G")], [⟨"a", "A", "g", 1, 2, "old", none, none⟩], []⟩).2.2
      [] ⟨"a", "A", "g", 1, 2, "old", none, none⟩ [] rfl (by simp) rfl).2⟩⟩

/-! ### Avatar-resolution and cache lemmas (shared by C4, C6, C7) -/

theorem defaultAvatarById_ne_empty (id : Option String) (d : String)
    (h : defaultAvatarById id = some d) : d ≠ "" := by
  rcases id with _ | s
  · simp [defaultAvatarById] at h
  · simp only [defaultAvatarById] at h
    split_ifs at h <;>
      first
        | exact Option.noConfusion h
        | (injection h with h2; rw [← h2]; decide)

theorem pool_mem_ne_empty (rand : String) (h : rand ∈ avatarPool) : rand ≠ "" := by
  have : ∀ x ∈ avatarPool, x ≠ "" := by decide
  exact this rand h

theorem fallbackAvatar_truthy (rand : String) (id : Option String)
    (h : rand ∈ avatarPool) :
    ∃ a, fallbackAvatar rand id = some a ∧ a ≠ "" := by
  unfold fallbackAvatar
  rcases hd : defaultAvatarById id with _ | d
  · exact ⟨rand, by simp [randomAvatar, avatarPool], pool_mem_ne_empty rand h⟩
  · exact ⟨d, rfl, defaultAvatarById_ne_empty id d hd⟩

theorem resolveAvatar_truthy (rand : String) (n : CNode) (h : rand ∈ avatarPool) :
    ∃ a, resolveAvatar rand n = some a ∧ a ≠ "" := by
  rcases ha : n.avatar with _ | a
  · simpa [resolveAvatar, ha] using fallbackAvatar_truthy rand n.id h
  · by_cases ht : jsTrim a = ""
    · simpa [resolveAvatar, ha, ht] using fallbackAvatar_truthy rand n.id h
    · exact ⟨jsTrim a, by simp [resolveAvatar, ha, ht], ht⟩

theorem resolveAvatar_of_explicit (rand rand' : String) (n : CNode)
    (h : hasExplicitAvatar n = true) :
    resolveAvatar rand n = resolveAvatar rand' n := by
  rcases ha : n.avatar with _ | a
  · simp [hasExplicitAvatar, ha] at h
  · simp only [hasExplicitAvatar, ha, decide_eq_true_eq] at h
    simp [resolveAvatar, ha, h]

theorem processNode_id (rand : String) (c : AvatarCache) (n : CNode) :
    (processNode rand c n).1.id = n.id := by
  simp only [processNode, applyNodeDefaults]
  rcases hr : resolveAvatar rand n with _ | a
  · rfl
  · by_cases h1 : a = ""
    · simp [h1]
    · by_cases h2 : hasExplicitAvatar n = true
      · simp [h1, h2]
      · simp only [h1, h2]
        rcases hc : c n.id with _ | cached
        · simp [hc, h1, h2]
        · by_cases h3 : cached = "" <;> simp [hc, h1, h2, h3]

theorem processNode_shape (rand : String) (c : AvatarCache) (n : CNode) :
    ∃ av, (processNode rand c n).1 =
      { n with avatar := av, description := some (n.description.getD "") } := by
  simp only [processNode, applyNodeDefaults]
  rcases hr : resolveAvatar rand n with _ | a
  · exact ⟨none, rfl⟩
  · by_cases h1 : a = ""
    · exact ⟨some a, by simp [h1]⟩
    · by_cases h2 : hasExplicitAvatar n = true
      · exact ⟨some a, by simp [h1, h2]⟩
      · rcases hc : c n.id with _ | cached
        · exact ⟨some a, by simp [hc, h1, h2]⟩
        · by_cases h3 : cached = ""
          · exact ⟨some a, by simp [hc, h1, h2, h3]⟩
          · exact ⟨some cached, by simp [hc, h1, h2, h3]⟩

theorem processNode_cache_other (rand : String) (c : AvatarCache) (n : CNode)
    (k : Option String) (hk : k ≠ n.id) : (processNode rand c n).2 k = c k := by
  simp only [processNode, applyNodeDefaults]
  rcases hr : resolveAvatar rand n with _ | a
  · rfl
  · by_cases h1 : a = ""
    · simp [h1]
    · by_cases h2 : hasExplicitAvatar n = true
      · simp [h1, h2, cacheSet, hk]
      · rcases hc : c n.id with _ | cached
        · simp [hc, h1, h2, cacheSet, hk]
        · by_cases h3 : cached = "" <;> simp [hc, h1, h2, h3, cacheSet, hk]

theorem processNode_cache_self (rand : String) (c : AvatarCache) (n : CNode)
    (h : rand ∈ avatarPool) :
    ∃ a, (processNode rand c n).1.avatar = some a ∧ a ≠ "" ∧
      (processNode rand c n).2 n.id = some a := by
  obtain ⟨a, hr, hane⟩ := resolveAvatar_truthy rand n h
  simp only [processNode, applyNodeDefaults, hr]
  rw [if_neg hane]
  by_cases h2 : hasExplicitAvatar n = true
  · rw [if_pos h2]
    exact ⟨a, by simp, hane, by simp [cacheSet]⟩
  · rw [if_neg h2]
    rcases hc : c n.id with _ | cached
    · exact ⟨a, by simp, hane, by simp [cacheSet]⟩
    · by_cases h3 : cached = ""
      · exact ⟨a, by simp [h3], hane, by simp [h3, cacheSet]⟩
      · exact ⟨cached, by simp [h3], h3, by simp [h3, hc]⟩

theorem processNode_of_explicit (rand : String) (c : AvatarCache) (n : CNode)
    (h : hasExplicitAvatar n = true) :
    (processNode rand c n).1 = applyNodeDefaults rand n := by
  rcases ha : n.avatar with _ | av
  · simp [hasExplicitAvatar, ha] at h
  · have ht : jsTrim av ≠ "" := by simpa [hasExplicitAvatar, ha] using h
    have hrv : resolveAvatar rand n = some (jsTrim av) := by simp [resolveAvatar, ha, ht]
    simp [processNode, applyNodeDefaults, hrv, ht, h]

theorem processNode_of_cached (rand : String) (c : AvatarCache) (n : CNode)
    (hexp : hasExplicitAvatar n = false) (a A : String)
    (hrv : resolveAvatar rand n = some a) (hane : a ≠ "")
    (hc : c n.id = some A) (hA : A ≠ "") :
    (processNode rand c n).1 = { applyNodeDefaults rand n with avatar := some A } ∧
    (processNode rand c n).2 = c := by
  simp [processNode, applyNodeDefaults, hrv, hane, hexp, hc, hA]

theorem applyNodeDefaults_avatar_override (r r' : String) (n : CNode) (v : Option String) :
    { applyNodeDefaults r n with avatar := v } = { applyNodeDefaults r' n with avatar := v } := by
  simp [applyNodeDefaults]

theorem someIds_cons_none (n : CNode) (rest : List CNode) (hid : n.id = none) :
    someIds (n :: rest) = someIds rest := by
  simp [someIds, List.filterMap_cons, hid]

theorem someIds_cons_some (n : CNode) (rest : List CNode) (s : String)
    (hid : n.id = some s) : someIds (n :: rest) = s :: someIds rest := by
  simp [someIds, List.filterMap_cons, hid]

theorem mem_someIds (t : String) (l : List CNode) :
    t ∈ someIds l ↔ ∃ m ∈ l, m.id = some t := by
  simp [someIds, List.mem_filterMap]

theorem processNodes_cache_other (rnd : Nat → String) (ns : List CNode)
    (k : Option String) (hk : ∀ n ∈ ns, k ≠ n.id) :
    ∀ (i : Nat) (c : AvatarCache), (processNodes rnd i c ns).2 k = c k := by
  induction ns with
  | nil => intro i c; rfl
  | cons n rest ih =>
    intro i c
    have h1 : k ≠ n.id := hk n (by simp)
    have h2 : ∀ m ∈ rest, k ≠ m.id := fun m hm => hk m (by simp [hm])
    simp only [processNodes]
    rw [ih h2 (i + 1) _, processNode_cache_other _ _ _ _ h1]

theorem processNodes_mem_id (rnd : Nat → String) (ns : List CNode) :
    ∀ (i : Nat) (c : AvatarCache) (m : CNode),
      m ∈ (processNodes rnd i c ns).1 → m.id ∈ ns.map (fun n => n.id) := by
  induction ns with
  | nil => intro i c m hm; simp [processNodes] at hm
  | cons n rest ih =>
    intro i c m hm
    simp only [processNodes] at hm
    rcases List.mem_cons.mp hm with rfl | hm
    · simp [processNode_id]
    · simp only [List.map_cons, List.mem_cons]
      exact Or.inr (ih (i + 1) _ m hm)

theorem processNodes_cacheAgrees (rnd : Nat → String) (hr : validRnd rnd)
    (ns : List CNode) (hnodup : (someIds ns).Nodup) :
    ∀ (i : Nat) (c : AvatarCache),
      cacheAgrees (processNodes rnd i c ns).2 (processNodes rnd i c ns).1 := by
  induction ns with
  | nil => intro i c m hm; simp [processNodes] at hm
  | cons n rest ih =>
    intro i c m hm s hms
    simp only [processNodes] at hm ⊢
    rcases List.mem_cons.mp hm with rfl | hm
    · have hnid : n.id = some s := by rw [← processNode_id (rnd i) c n, hms]
      obtain ⟨a, hav, hane, hcs⟩ := processNode_cache_self (rnd i) c n (hr i)
      have hs : s ∉ someIds rest := by
        rw [someIds_cons_some n rest s hnid] at hnodup
        exact (List.nodup_cons.mp hnodup).1
      have hk : ∀ q ∈ rest, (some s : Option String) ≠ q.id := by
        intro q hq hqs
        exact hs ((mem_someIds s rest).mpr ⟨q, hq, hqs.symm⟩)
      rw [processNodes_cache_other rnd rest (some s) hk (i + 1) _]
      refine ⟨a, hav, hane, ?_⟩
      rw [← hnid, hcs]
    · have hnr : (someIds rest).Nodup := by
        rcases hid : n.id with _ | t
        · rwa [someIds_cons_none n rest hid] at hnodup
        · rw [someIds_cons_some n rest t hid] at hnodup
          exact (List.nodup_cons.mp hnodup).2
      exact ih hnr (i + 1) _ m hm s hms

theorem processNodes_sticky (rnd : Nat → String) (hr : validRnd rnd) (id0 A : String)
    (hA : A ≠ "") :
    ∀ (ns : List CNode), (∀ n ∈ ns, n.id = some id0 → hasExplicitAvatar n = false) →
    ∀ (i : Nat) (c : AvatarCache), c (some id0) = some A →
      (processNodes rnd i c ns).2 (some id0) = some A ∧
      ∀ m ∈ (processNodes rnd i c ns).1, m.id = some id0 → m.avatar = some A := by
  intro ns
  induction ns with
  | nil => intro _ i c hc; exact ⟨hc, by intro m hm; simp [processNodes] at hm⟩
  | cons n rest ih =>
    intro hblank i c hc
    have hbrest : ∀ m ∈ rest, m.id = some id0 → hasExplicitAvatar m = false :=
      fun m hm => hblank m (by simp [hm])
    by_cases hid : n.id = some id0
    · have hexp : hasExplicitAvatar n = false := hblank n (by simp) hid
      obtain ⟨a, hrv, hane⟩ := resolveAvatar_truthy (rnd i) n (hr i)
      obtain ⟨hhead, hcache⟩ := processNode_of_cached (rnd i) c n hexp a A hrv hane
        (by rw [hid]; exact hc) hA
      constructor
      · simp only [processNodes]
        rw [hcache]
        exact (ih hbrest (i + 1) c hc).1
      · intro m hm hmid
        simp only [processNodes] at hm
        rcases List.mem_cons.mp hm with rfl | hm
        · rw [hhead]
        · rw [hcache] at hm
          exact (ih hbrest (i + 1) c hc).2 m hm hmid
    · have hck : (processNode (rnd i) c n).2 (some id0) = some A := by
        rw [processNode_cache_other (rnd i) c n (some id0) (fun h => hid h.symm), hc]
      constructor
      · simp only [processNodes]
        exact (ih hbrest (i + 1) _ hck).1
      · intro m hm hmid
        simp only [processNodes] at hm
        rcases List.mem_cons.mp hm with rfl | hm
        · exact absurd (by rw [← processNode_id (rnd i) c n, hmid]) hid
        · exact (ih hbrest (i + 1) _ hck).2 m hm hmid

theorem processNodes_replay (rnd1 rnd2 : Nat → String) (h1 : validRnd rnd1)
    (h2 : validRnd rnd2) :
    ∀ (ns : List CNode), (someIds ns).Nodup →
    ∀ (i1 i2 : Nat) (c1 c2 : AvatarCache),
      cacheAgrees c2 (processNodes rnd1 i1 c1 ns).1 →
      (processNodes rnd2 i2 c2 ns).1.filter (fun n => n.id.isSome) =
      (processNodes rnd1 i1 c1 ns).1.filter (fun n => n.id.isSome) := by
  intro ns
  induction ns with
  | nil => intro _ i1 i2 c1 c2 _; rfl
  | cons n rest ih =>
    intro hnodup i1 i2 c1 c2 hagree
    simp only [processNodes] at hagree ⊢
    rcases hid : n.id with _ | s
    · -- no string id: both heads are dropped by the filter
      have hid1 : (processNode (rnd1 i1) c1 n).1.id = none := by
        rw [processNode_id, hid]
      have hid2 : (processNode (rnd2 i2) c2 n).1.id = none := by
        rw [processNode_id, hid]
      have hnr : (someIds rest).Nodup := by
        rwa [someIds_cons_none n rest hid] at hnodup
      have hagree' : cacheAgrees (processNode (rnd2 i2) c2 n).2
          (processNodes rnd1 (i1 + 1) (processNode (rnd1 i1) c1 n).2 rest).1 := by
        intro m hm t hmt
        obtain ⟨b, hb1, hb2, hb3⟩ := hagree m (List.mem_cons_of_mem _ hm) t hmt
        refine ⟨b, hb1, hb2, ?_⟩
        rw [processNode_cache_other (rnd2 i2) c2 n (some t) (by rw [hid]; simp), hb3]
      simp only [List.filter_cons, hid1, hid2, Option.isSome_none]
      exact ih hnr (i1 + 1) (i2 + 1) _ _ hagree'
    · -- string id s: the heads coincide and are kept
      have hnid1 : (processNode (rnd1 i1) c1 n).1.id = some s := by
        rw [processNode_id, hid]
      have hnid2 : (processNode (rnd2 i2) c2 n).1.id = some s := by
        rw [processNode_id, hid]
      have hs : s ∉ someIds rest := by
        rw [someIds_cons_some n rest s hid] at hnodup
        exact (List.nodup_cons.mp hnodup).1
      have hnr : (someIds rest).Nodup := by
        rw [someIds_cons_some n rest s hid] at hnodup
        exact (List.nodup_cons.mp hnodup).2
      obtain ⟨a, ha1, hane, hc2⟩ := hagree _ (List.mem_cons_self _ _) s hnid1
      have hhead : (processNode (rnd2 i2) c2 n).1 = (processNode (rnd1 i1) c1 n).1 := by
        by_cases hexp : hasExplicitAvatar n = true
        · rw [processNode_of_explicit (rnd2 i2) c2 n hexp,
             processNode_of_explicit (rnd1 i1) c1 n hexp]
          simp [applyNodeDefaults, resolveAvatar_of_explicit (rnd2 i2) (rnd1 i1) n hexp]
        · obtain ⟨a2, hrv2, hane2⟩ := resolveAvatar_truthy (rnd2 i2) n (h2 i2)
          have hc2' : c2 n.id = some a := by rw [hid]; exact hc2
          obtain ⟨hh2, _⟩ := processNode_of_cached (rnd2 i2) c2 n
            (Bool.not_eq_true _ ▸ hexp) a2 a hrv2 hane2 hc2' hane
          obtain ⟨av1, hsh⟩ := processNode_shape (rnd1 i1) c1 n
          have hav1 : av1 = some a := by
            have := ha1
            rw [hsh] at this
            exact this
          rw [hh2, hsh, hav1]
          simp [applyNodeDefaults]
      have hagree' : cacheAgrees (processNode (rnd2 i2) c2 n).2
          (processNodes rnd1 (i1 + 1) (processNode (rnd1 i1) c1 n).2 rest).1 := by
        intro m hm t hmt
        obtain ⟨b, hb1, hb2, hb3⟩ := hagree m (List.mem_cons_of_mem _ hm) t hmt
        have hts : t ≠ s := by
          intro hts
          apply hs
          have hmid := processNodes_mem_id rnd1 rest (i1 + 1) _ m hm
          rw [hmt, hts] at hmid
          rcases List.mem_map.mp hmid with ⟨q, hq, hqid⟩
          exact (mem_someIds s rest).mpr ⟨q, hq, hqid⟩
        refine ⟨b, hb1, hb2, ?_⟩
        rw [processNode_cache_other (rnd2 i2) c2 n (some t) (by rw [hid]; simp [hts]), hb3]
      simp only [List.filter_cons, hnid1, hnid2, Option.isSome_some]
      rw [hhead]
      simp only [if_true]
      rw [ih hnr (i1 + 1) (i2 + 1) _ _ hagree']

theorem validRnd_constRnd : validRnd constRnd := by
  intro i
  show "/avatars/main-guy.jpeg" ∈ avatarPool
  decide

/-! ### C6: reconciliation idempotence -/

/-- C6 counterexample: reconciliation is *not* idempotent for every server
snapshot. A payload repeating id `"x"` — once without an avatar, once with
an explicit one — resolves the first entry to a pool avatar on the first
pass, but to the cached explicit avatar `"pic"` on the second pass. -/
theorem applyIncomingData_idempotent_counterexample :
    (applyIncomingData constRnd dupIdIncoming
        (applyIncomingData constRnd dupIdIncoming emptyCache).2).1 ≠
      (applyIncomingData constRnd dupIdIncoming emptyCache).1 := by
  decide

/-- C6 (amended): for every server snapshot whose string-id nodes have
pairwise distinct ids (and any pool-drawing random oracles), applying the
reconciliation normalization twice yields the same `data` — groups, nodes
with resolved avatars and defaulted descriptions, and links with normalized
types — as applying it once. -/
theorem applyIncomingData_idempotent (rnd1 rnd2 : Nat → String)
    (incoming : Incoming) (c : AvatarCache)
    (h1 : validRnd rnd1) (h2 : validRnd rnd2)
    (hnodup : (someIds (incoming.nodes.getD [])).Nodup) :
    (applyIncomingData rnd2 incoming (applyIncomingData rnd1 incoming c).2).1 =
      (applyIncomingData rnd1 incoming c).1 := by
  simp only [applyIncomingData, GraphData.mk.injEq]
  refine ⟨trivial, ?_, trivial⟩
  exact processNodes_replay rnd1 rnd2 h1 h2 _ hnodup 0 0 c _
    (processNodes_cacheAgrees rnd1 h1 _ hnodup 0 c)

/-- C6 witness: idempotence at a concrete one-node snapshot. -/
theorem applyIncomingData_idempotent_witness :
    (applyIncomingData constRnd
        ⟨some [], some [⟨some "x", "A", "g", 0, 0, none, none, none⟩], some []⟩
        (applyIncomingData constRnd
          ⟨some [], some [⟨some "x", "A", "g", 0, 0, none, none, none⟩], some []⟩
          emptyCache).2).1 =
      (applyIncomingData constRnd
        ⟨some [], some [⟨some "x", "A", "g", 0, 0, none, none, none⟩], some []⟩
        emptyCache).1 :=
  applyIncomingData_idempotent constRnd constRnd
    ⟨some [], some [⟨some "x", "A", "g", 0, 0, none, none, none⟩], some []⟩
    emptyCache validRnd_constRnd validRnd_constRnd (by decide)

/-! ### C7: avatar stickiness -/

/-- C7: once a reconciliation with distinct node ids has assigned a node id
the avatar `A`, any later reconciliation whose payload omits (or supplies a
blank) avatar for that id leaves every output node with that id carrying
`A`, and the cache still records `A` (so the property persists across
further such reconciliations); only an explicit non-empty avatar can change
it. -/
theorem avatar_stickiness (rnd1 rnd2 : Nat → String) (inc1 inc2 : Incoming)
    (c0 : AvatarCache) (id0 A : String)
    (h1 : validRnd rnd1) (h2 : validRnd rnd2)
    (hnodup : (someIds (inc1.nodes.getD [])).Nodup)
    (hassigned : ∃ n1 ∈ (applyIncomingData rnd1 inc1 c0).1.nodes,
      n1.id = some id0 ∧ n1.avatar = some A)
    (hblank : ∀ n ∈ inc2.nodes.getD [], n.id = some id0 →
      hasExplicitAvatar n = false) :
    (∀ m ∈ (applyIncomingData rnd2 inc2 (applyIncomingData rnd1 inc1 c0).2).1.nodes,
       m.id = some id0 → m.avatar = some A) ∧
    (applyIncomingData rnd2 inc2 (applyIncomingData rnd1 inc1 c0).2).2 (some id0) =
      some A := by
  obtain ⟨n1, hn1mem, hn1id, hn1av⟩ := hassigned
  have hmem' : n1 ∈ (processNodes rnd1 0 c0 (inc1.nodes.getD [])).1 := by
    simp only [applyIncomingData] at hn1mem
    exact List.mem_of_mem_filter hn1mem
  obtain ⟨a, hav, hane, hca⟩ :=
    processNodes_cacheAgrees rnd1 h1 _ hnodup 0 c0 n1 hmem' id0 hn1id
  have haA : a = A := by
    rw [hn1av] at hav
    exact (Option.some_inj.mp hav).symm
  have hAne : A ≠ "" := haA ▸ hane
  have hc1 : (applyIncomingData rnd1 inc1 c0).2 (some id0) = some A := by
    simp only [applyIncomingData]
    rw [hca, haA]
  obtain ⟨hcache2, hmembers⟩ :=
    processNodes_sticky rnd2 h2 id0 A hAne (inc2.nodes.getD []) hblank 0 _ hc1
  refine ⟨?_, ?_⟩
  · intro m hm hmid
    simp only [applyIncomingData] at hm
    exact hmembers m (List.mem_of_mem_filter hm) hmid
  · simp only [applyIncomingData]
    exact hcache2

/-- C7 witness: a first load supplies an explicit avatar `"pic"` for node
`"x"`; a second load omitting it keeps the cache (and the node) at `"pic"`. -/
theorem avatar_stickiness_witness :
    (applyIncomingData constRnd
        ⟨some [], some [⟨some "x", "A", "g", 1, 1, none, none, none⟩], some []⟩
        (applyIncomingData constRnd
          ⟨some [], some [⟨some "x", "A", "g", 0, 0, none, some "pic", none⟩], some []⟩
          emptyCache).2).2 (some "x") = some "pic" :=
  (avatar_stickiness constRnd constRnd
    ⟨some [], some [⟨some "x", "A", "g", 0, 0, none, some "pic", none⟩], some []⟩
    ⟨some [], some [⟨some "x", "A", "g", 1, 1, none, none, none⟩], some []⟩
    emptyCache "x" "pic" validRnd_constRnd validRnd_constRnd
    (by decide) (by decide) (by decide)).2

/-! ### C5: optimistic rollback exactness -/

theorem someIds_nodup_unique (m n : CNode) (t : String)
    (hmt : m.id = some t) (hnt : n.id = some t) :
    ∀ (nodes : List CNode), (someIds nodes).Nodup →
      m ∈ nodes → n ∈ nodes → m = n := by
  intro nodes
  induction nodes with
  | nil => intro _ hm _; cases hm
  | cons k rest ih =>
    intro hnodup hm hn
    have hnr : (someIds rest).Nodup := by
      rcases hkid : k.id with _ | u
      · rwa [someIds_cons_none k rest hkid] at hnodup
      · rw [someIds_cons_some k rest u hkid] at hnodup
        exact (List.nodup_cons.mp hnodup).2
    rcases List.mem_cons.mp hm with rfl | hm' <;> rcases List.mem_cons.mp hn with rfl | hn'
    · rfl
    · exfalso
      rw [someIds_cons_some m rest t hmt] at hnodup
      exact (List.nodup_cons.mp hnodup).1 ((mem_someIds t rest).mpr ⟨n, hn', hnt⟩)
    · exfalso
      rw [someIds_cons_some n rest t hnt] at hnodup
      exact (List.nodup_cons.mp hnodup).1 ((mem_someIds t rest).mpr ⟨m, hm', hmt⟩)
    · exact ih hnr hm' hn'

theorem nodesByIdGet_spec (nodes : List CNode) (k : String) (m : CNode)
    (h : nodesByIdGet nodes k = some m) : m ∈ nodes ∧ m.id = some k := by
  have h1 := List.mem_of_find?_eq_some h
  have h2 := List.find?_some h
  exact ⟨List.mem_reverse.mp h1, by simpa using h2⟩

theorem nodesByIdGet_isSome (nodes : List CNode) (k : String) (n : CNode)
    (hn : n ∈ nodes) (hid : n.id = some k) :
    (nodesByIdGet nodes k).isSome = true := by
  rw [nodesByIdGet, List.find?_isSome]
  exact ⟨n, List.mem_reverse.mpr hn, by simp [hid]⟩

theorem notes_map_restore (focused text prev : String) :
    ∀ (nodes : List CNode),
      (∀ n ∈ nodes, n.id = some focused → n.description = some prev) →
      ((nodes.map (fun n =>
          if n.id = some focused then { n with description := some text } else n)).map
        (fun n =>
          if n.id = some focused then { n with description := some prev } else n)) =
        nodes := by
  intro nodes
  induction nodes with
  | nil => intro _; rfl
  | cons k rest ih =>
    intro h
    have hrest := fun m hm => h m (List.mem_cons_of_mem _ hm)
    simp only [List.map_cons]
    by_cases hid : k.id = some focused
    · have hk : k.description = some prev := h k (by simp) hid
      rw [if_pos hid]
      have hhead : (if ({ k with description := some text } : CNode).id = some focused
          then { ({ k with description := some text } : CNode) with
                   description := some prev }
          else { k with description := some text }) = k := by
        rw [if_pos (by simpa using hid)]
        cases k
        simp_all
      rw [hhead, ih hrest]
    · rw [if_neg hid, if_neg hid, ih hrest]

/-- C5: for each optimistic mutation the paired rollback restores the exact
pre-mutation state: adding a node whose id is absent (the guard checked by
`handleAddNode`) then filtering it out; adding a link under a fresh
generated id then filtering it out; and rewriting the focused node's notes
then restoring the snapshotted description — each leaves every unrelated
node, link and group untouched and returns the pre-mutation `data`. -/
theorem optimistic_rollback_exact (d : GraphData) (node : CNode) (link : CLink)
    (nid lid focused text : String) :
    (node.id = some nid → (∀ n ∈ d.nodes, n.id ≠ some nid) →
      addNodeRollback (addNodeOptimistic d node) nid = d) ∧
    (link.id = some lid → (∀ l ∈ d.links, l.id ≠ some lid) →
      addLinkRollback (addLinkOptimistic d link) lid = d) ∧
    ((someIds d.nodes).Nodup →
      (∀ n ∈ d.nodes, n.id = some focused → ∃ s, n.description = some s) →
      setFocusedNotes (setFocusedNotes d focused text) focused
        (focusedPrevDescription d focused) = d) := by
  refine ⟨?_, ?_, ?_⟩
  · intro hnid hfresh
    have h1 : d.nodes.filter (fun n => !decide (n.id = some nid)) = d.nodes :=
      List.filter_eq_self.mpr (fun a ha => by simpa using hfresh a ha)
    simp [addNodeOptimistic, addNodeRollback, List.filter_append, h1, hnid]
  · intro hlid hfresh
    have h1 : d.links.filter (fun l => !decide (l.id = some lid)) = d.links :=
      List.filter_eq_self.mpr (fun a ha => by simpa using hfresh a ha)
    simp [addLinkOptimistic, addLinkRollback, List.filter_append, h1, hlid]
  · intro hnodup hdesc
    have hkey : ∀ n ∈ d.nodes, n.id = some focused →
        n.description = some (focusedPrevDescription d focused) := by
      intro n hn hid
      obtain ⟨s, hs⟩ := hdesc n hn hid
      have hsome := nodesByIdGet_isSome d.nodes focused n hn hid
      rcases hg : nodesByIdGet d.nodes focused with _ | m
      · rw [hg] at hsome; cases hsome
      · obtain ⟨hmmem, hmid⟩ := nodesByIdGet_spec d.nodes focused m hg
        have hmn : m = n :=
          someIds_nodup_unique m n focused hmid hid d.nodes hnodup hmmem hn
        have hval : focusedPrevDescription d focused = s := by
          simp only [focusedPrevDescription, hg, hmn, hs, Option.getD_some]
        rw [hval]
        exact hs
    simp only [setFocusedNotes]
    rw [notes_map_restore focused text _ d.nodes hkey]

/-- C5 witness: the three rollbacks at a concrete two-node, one-link graph. -/
theorem optimistic_rollback_exact_witness :
    (addNodeRollback (addNodeOptimistic
        ⟨[("g", ⟨"G", none⟩)],
         [⟨some "a", "A", "g", 1, 2, none, none, some "notes a"⟩,
          ⟨some "b", "B", "g", 3, 4, none, none, some "notes b"⟩],
         [⟨some "l1", "a", "b", some "solid"⟩]⟩
        ⟨some "c", "C", "g", 5, 6, none, none, some ""⟩) "c" =
      ⟨[("g", ⟨"G", none⟩)],
       [⟨some "a", "A", "g", 1, 2, none, none, some "notes a"⟩,
        ⟨some "b", "B", "g", 3, 4, none, none, some "notes b"⟩],
       [⟨some "l1", "a", "b", some "solid"⟩]⟩) ∧
    (addLinkRollback (addLinkOptimistic
        ⟨[("g", ⟨"G", none⟩)],
         [⟨some "a", "A", "g", 1, 2, none, none, some "notes a"⟩,
          ⟨some "b", "B", "g", 3, 4, none, none, some "notes b"⟩],
         [⟨some "l1", "a", "b", some "solid"⟩]⟩
        ⟨some "l2", "b", "a", some "trust"⟩) "l2" =
      ⟨[("g", ⟨"G", none⟩)],
       [⟨some "a", "A", "g", 1, 2, none, none, some "notes a"⟩,
        ⟨some "b", "B", "g", 3, 4, none, none, some "notes b"⟩],
       [⟨some "l1", "a", "b", some "solid"⟩]⟩) ∧
    (setFocusedNotes (setFocusedNotes
        ⟨[("g", ⟨"G", none⟩)],
         [⟨some "a", "A", "g", 1, 2, none, none, some "notes a"⟩,
          ⟨some "b", "B", "g", 3, 4, none, none, some "notes b"⟩],
         [⟨some "l1", "a", "b", some "solid"⟩]⟩ "a" "edited") "a"
        (focusedPrevDescription
          ⟨[("g", ⟨"G", none⟩)],
           [⟨some "a", "A", "g", 1, 2, none, none, some "notes a"⟩,
            ⟨some "b", "B", "g", 3, 4, none, none, some "notes b"⟩],
           [⟨some "l1", "a", "b", some "solid"⟩]⟩ "a") =
      ⟨[("g", ⟨"G", none⟩)],
       [⟨some "a", "A", "g", 1, 2, none, none, some "notes a"⟩,
        ⟨some "b", "B", "g", 3, 4, none, none, some "notes b"⟩],
       [⟨some "l1", "a", "b", some "solid"⟩]⟩) :=
  ⟨(optimistic_rollback_exact _ _ ⟨some "l2", "b", "a", some "trust"⟩
      "c" "l2" "a" "edited").1 rfl (by decide),
   (optimistic_rollback_exact _ ⟨some "c", "C", "g", 5, 6, none, none, some ""⟩ _
      "c" "l2" "a" "edited").2.1 rfl (by decide),
   (optimistic_rollback_exact _ ⟨some "c", "C", "g", 5, 6, none, none, some ""⟩
      ⟨some "l2", "b", "a", some "trust"⟩ "c" "l2" "a" "edited").2.2
      (by decide) (by simp)⟩

/-! ### C4: demo-fallback gating -/

theorem loadStep_hasLoadedRemote (s : ClientState) (a : LoadAttempt) :
    (loadStep s a).hasLoadedRemote = (s.hasLoadedRemote || isSuccess a.outcome) := by
  rcases a with ⟨allow, rnd, outcome⟩
  rcases outcome with json | _ | _
  · by_cases husd : s.usedFallbackData = true <;> simp [loadStep, isSuccess, husd]
  · by_cases hc : (allow && !s.hasLoadedRemote) = true <;>
      simp [loadStep, isSuccess, hc]
  · simp [loadStep, isSuccess]

theorem foldl_loadStep_hasLoadedRemote :
    ∀ (tr : List LoadAttempt) (s : ClientState),
      (tr.foldl loadStep s).hasLoadedRemote =
        (s.hasLoadedRemote || tr.any (fun a => isSuccess a.outcome)) := by
  intro tr
  induction tr with
  | nil => intro s; simp
  | cons a rest ih =>
    intro s
    simp only [List.foldl_cons, List.any_cons]
    rw [ih, loadStep_hasLoadedRemote, Bool.or_assoc]

theorem isFailure_eq_true (o : LoadOutcome) (h : isFailure o = true) :
    o = LoadOutcome.failure := by
  cases o with
  | failure => rfl
  | success json => exact absurd h (by simp [isFailure])
  | aborted => exact absurd h (by simp [isFailure])

theorem mem_take_decompose (tr : List LoadAttempt) (i : Nat) (hi : i < tr.length)
    (a : LoadAttempt) (ha : a ∈ tr.take i) :
    ∃ j, ∃ hj : j < i, tr.get ⟨j, hj.trans hi⟩ = a := by
  obtain ⟨⟨j, hjlen⟩, hget⟩ := List.mem_iff_get.mp ha
  have hj : j < i := lt_of_lt_of_le hjlen (by simp [List.length_take])
  refine ⟨j, hj, ?_⟩
  rw [← hget]
  simp [List.get_take]

theorem get_mem_take (tr : List LoadAttempt) (i : Nat) (hi : i < tr.length)
    (j : Nat) (hj : j < i) : tr.get ⟨j, hj.trans hi⟩ ∈ tr.take i := by
  have hjt : j < (tr.take i).length := by
    simp [List.length_take]
    exact ⟨hj, hj.trans hi⟩
  have : (tr.take i).get ⟨j, hjt⟩ = tr.get ⟨j, hj.trans hi⟩ := by
    simp [List.get_take]
  rw [← this]
  exact List.get_mem _ _ _

/-- C4: in every session trace of completed load attempts, the demo-content
fallback is taken at step `i` exactly when that load failed, fallback was
allowed for the call, and no earlier load succeeded; a failed load with
fallback disallowed changes nothing; and once any load has succeeded, every
later failed load leaves the session state (the last-known-good graph)
entirely unchanged. -/
theorem demo_fallback_gating (tr : List LoadAttempt) (i : Nat) (hi : i < tr.length) :
    (isFailure (tr.get ⟨i, hi⟩).outcome = true →
      (tr.get ⟨i, hi⟩).allowFallback = true →
      (∀ j (hj : j < i), isSuccess (tr.get ⟨j, hj.trans hi⟩).outcome = false) →
      loadStep (runTrace (tr.take i)) (tr.get ⟨i, hi⟩) =
        applyDemoFallback (runTrace (tr.take i)) (tr.get ⟨i, hi⟩).rnd) ∧
    (isFailure (tr.get ⟨i, hi⟩).outcome = true →
      (tr.get ⟨i, hi⟩).allowFallback = false →
      loadStep (runTrace (tr.take i)) (tr.get ⟨i, hi⟩) = runTrace (tr.take i)) ∧
    (isFailure (tr.get ⟨i, hi⟩).outcome = true →
      (∃ j, ∃ hj : j < i, isSuccess (tr.get ⟨j, hj.trans hi⟩).outcome = true) →
      loadStep (runTrace (tr.take i)) (tr.get ⟨i, hi⟩) = runTrace (tr.take i)) := by
  refine ⟨?_, ?_, ?_⟩
  · intro hf hall hns
    have ho := isFailure_eq_true _ hf
    have hchar : (runTrace (tr.take i)).hasLoadedRemote = false := by
      rw [runTrace, foldl_loadStep_hasLoadedRemote]
      simp only [initialClientState, Bool.false_or]
      rw [List.any_eq_false]
      intro a ha
      obtain ⟨j, hj, rfl⟩ := mem_take_decompose tr i hi a ha
      simpa using hns j hj
    simp only [List.get_eq_getElem] at ho hall ⊢
    simp only [loadStep, ho, hall, hchar]
    simp [applyDemoFallback]
    exact hchar
  · intro hf hall
    have ho := isFailure_eq_true _ hf
    simp only [List.get_eq_getElem] at ho hall ⊢
    simp [loadStep, ho, hall]
  · intro hf hex
    have ho := isFailure_eq_true _ hf
    have hchar : (runTrace (tr.take i)).hasLoadedRemote = true := by
      rw [runTrace, foldl_loadStep_hasLoadedRemote]
      simp only [initialClientState, Bool.false_or]
      rw [List.any_eq_true]
      obtain ⟨j, hj, hjs⟩ := hex
      exact ⟨tr.get ⟨j, hj.trans hi⟩, get_mem_take tr i hi j hj, hjs⟩
    simp only [List.get_eq_getElem] at ho ⊢
    simp [loadStep, ho, hchar]

/-- C4 witness: a first failed load with fallback allowed applies the demo
content. -/
theorem demo_fallback_gating_witness :
    loadStep (runTrace (List.take 0 [⟨true, constRnd, LoadOutcome.failure⟩]))
        (([⟨true, constRnd, LoadOutcome.failure⟩] : List LoadAttempt).get
          ⟨0, by simp⟩) =
      applyDemoFallback
        (runTrace (List.take 0 [⟨true, constRnd, LoadOutcome.failure⟩]))
        (([⟨true, constRnd, LoadOutcome.failure⟩] : List LoadAttempt).get
          ⟨0, by simp⟩).rnd :=
  (demo_fallback_gating [⟨true, constRnd, LoadOutcome.failure⟩] 0 (by simp)).1
    rfl rfl (fun j hj => absurd hj (Nat.not_lt_zero j))

/-! ### C3: candidate order and fetch retry semantics -/

theorem dedupAppend_prefix (l : List String) :
    ∀ acc, ∃ suffix, dedupAppend acc l = acc ++ suffix := by
  induction l with
  | nil => intro acc; exact ⟨[], by simp [dedupAppend]⟩
  | cons b rest ih =>
    intro acc
    by_cases hb : b ∈ acc
    · simpa [dedupAppend, hb] using ih acc
    · obtain ⟨s, hs⟩ := ih (acc ++ [b])
      refine ⟨b :: s, ?_⟩
      rw [show dedupAppend acc (b :: rest) = dedupAppend (acc ++ [b]) rest from by
        simp [dedupAppend, hb]]
      rw [hs]
      simp

theorem dedupAppend_nodup (l : List String) :
    ∀ acc, acc.Nodup → (dedupAppend acc l).Nodup := by
  induction l with
  | nil => intro acc h; simpa [dedupAppend] using h
  | cons b rest ih =>
    intro acc h
    by_cases hb : b ∈ acc
    · simpa [dedupAppend, hb] using ih acc h
    · have hnd : (acc ++ [b]).Nodup := by
        simp [List.nodup_append, h, hb]
      simpa [dedupAppend, hb] using ih (acc ++ [b]) hnd

theorem dedupAppend_mem (l : List String) :
    ∀ acc x, x ∈ dedupAppend acc l ↔ x ∈ acc ∨ x ∈ l := by
  induction l with
  | nil => intro acc x; simp [dedupAppend]
  | cons b rest ih =>
    intro acc x
    by_cases hb : b ∈ acc
    · rw [show dedupAppend acc (b :: rest) = dedupAppend acc rest from by
        simp [dedupAppend, hb]]
      rw [ih acc x]
      simp only [List.mem_cons]
      constructor
      · rintro (h | h)
        · exact Or.inl h
        · exact Or.inr (Or.inr h)
      · rintro (h | rfl | h)
        · exact Or.inl h
        · exact Or.inl hb
        · exact Or.inr h
    · rw [show dedupAppend acc (b :: rest) = dedupAppend (acc ++ [b]) rest from by
        simp [dedupAppend, hb]]
      rw [ih _ x]
      simp [List.mem_append, or_assoc]

theorem dedupAppend_empty_last (init : List String)
    (hinit : ∀ b ∈ init, b ≠ "") :
    ∀ acc, "" ∉ acc →
      dedupAppend acc (init ++ [""]) = dedupAppend acc init ++ [""] := by
  induction init with
  | nil =>
    intro acc hacc
    simp [dedupAppend, hacc]
  | cons b rest ih =>
    intro acc hacc
    have hb : b ≠ "" := hinit b (by simp)
    have hrest : ∀ x ∈ rest, x ≠ "" := fun x hx => hinit x (by simp [hx])
    simp only [List.cons_append]
    by_cases hmem : b ∈ acc
    · rw [show dedupAppend acc (b :: (rest ++ [""])) = dedupAppend acc (rest ++ [""]) from by
          simp [dedupAppend, hmem],
        show dedupAppend acc (b :: rest) = dedupAppend acc rest from by
          simp [dedupAppend, hmem]]
      exact ih hrest acc hacc
    · rw [show dedupAppend acc (b :: (rest ++ [""])) =
            dedupAppend (acc ++ [b]) (rest ++ [""]) from by
          simp [dedupAppend, hmem],
        show dedupAppend acc (b :: rest) = dedupAppend (acc ++ [b]) rest from by
          simp [dedupAppend, hmem]]
      refine ih hrest (acc ++ [b]) ?_
      simp only [List.mem_append, List.mem_singleton]
      rintro (h | h)
      · exact hacc h
      · exact hb h.symm

theorem fetchAttempts_success (oracle : String → FetchOutcome) (path : String) :
    ∀ (l : List String) (le : Option FetchErr) (b : String),
      fetchAttempts oracle path l le = .success b →
      oracle b = .ok ∧
      ∃ pre post, l = pre ++ b :: post ∧ ∀ x ∈ pre, isAdvance (oracle x) := by
  intro l
  induction l with
  | nil => intro le b h; simp [fetchAttempts] at h
  | cons c rest ih =>
    intro le b h
    rcases ho : oracle c with _ | status | msg | _
    · simp only [fetchAttempts, ho] at h
      obtain rfl : c = b := by simpa using h
      exact ⟨ho, [], rest, rfl, by simp⟩
    · simp only [fetchAttempts, ho] at h
      obtain ⟨hok, pre, post, hdec, hadv⟩ := ih _ b h
      refine ⟨hok, c :: pre, post, by rw [hdec]; rfl, ?_⟩
      intro x hx
      rcases List.mem_cons.mp hx with rfl | hx
      · exact Or.inl ⟨status, ho⟩
      · exact hadv x hx
    · simp only [fetchAttempts, ho] at h
      obtain ⟨hok, pre, post, hdec, hadv⟩ := ih _ b h
      refine ⟨hok, c :: pre, post, by rw [hdec]; rfl, ?_⟩
      intro x hx
      rcases List.mem_cons.mp hx with rfl | hx
      · exact Or.inr ⟨msg, ho⟩
      · exact hadv x hx
    · simp only [fetchAttempts, ho] at h
      simp at h

theorem fetchAttempts_aborted (oracle : String → FetchOutcome) (path : String) :
    ∀ (l : List String) (le : Option FetchErr),
      fetchAttempts oracle path l le = .aborted →
      ∃ pre x post, l = pre ++ x :: post ∧ oracle x = .abortErr ∧
        ∀ y ∈ pre, isAdvance (oracle y) := by
  intro l
  induction l with
  | nil => intro le h; simp [fetchAttempts] at h
  | cons c rest ih =>
    intro le h
    rcases ho : oracle c with _ | status | msg | _
    · simp only [fetchAttempts, ho] at h
      simp at h
    · simp only [fetchAttempts, ho] at h
      obtain ⟨pre, x, post, hdec, hab, hadv⟩ := ih _ h
      refine ⟨c :: pre, x, post, by rw [hdec]; rfl, hab, ?_⟩
      intro y hy
      rcases List.mem_cons.mp hy with rfl | hy
      · exact Or.inl ⟨status, ho⟩
      · exact hadv y hy
    · simp only [fetchAttempts, ho] at h
      obtain ⟨pre, x, post, hdec, hab, hadv⟩ := ih _ h
      refine ⟨c :: pre, x, post, by rw [hdec]; rfl, hab, ?_⟩
      intro y hy
      rcases List.mem_cons.mp hy with rfl | hy
      · exact Or.inr ⟨msg, ho⟩
      · exact hadv y hy
    · exact ⟨[], c, rest, rfl, ho, by simp⟩

theorem fetchAttempts_failed (oracle : String → FetchOutcome) (path : String) :
    ∀ (l : List String) (le le' : Option FetchErr),
      fetchAttempts oracle path l le = .failed le' →
      (∀ x ∈ l, isAdvance (oracle x)) ∧ le' = lastErrorAfter oracle path l le := by
  intro l
  induction l with
  | nil =>
    intro le le' h
    refine ⟨by simp, ?_⟩
    simpa [fetchAttempts, lastErrorAfter] using h.symm
  | cons c rest ih =>
    intro le le' h
    rcases ho : oracle c with _ | status | msg | _
    · simp only [fetchAttempts, ho] at h
      simp at h
    · simp only [fetchAttempts, ho] at h
      obtain ⟨hall, heq⟩ := ih _ _ h
      refine ⟨?_, ?_⟩
      · intro x hx
        rcases List.mem_cons.mp hx with rfl | hx
        · exact Or.inl ⟨status, ho⟩
        · exact hall x hx
      · rw [heq]
        simp [lastErrorAfter, List.foldl_cons, ho]
    · simp only [fetchAttempts, ho] at h
      obtain ⟨hall, heq⟩ := ih _ _ h
      refine ⟨?_, ?_⟩
      · intro x hx
        rcases List.mem_cons.mp hx with rfl | hx
        · exact Or.inr ⟨msg, ho⟩
        · exact hall x hx
      · rw [heq]
        simp [lastErrorAfter, List.foldl_cons, ho]
    · simp only [fetchAttempts, ho] at h
      simp at h

/-- C3: the request routine's observable behaviour. The attempt order
starts with the sanitized preferred base, holds no duplicates, and consists
exactly of the preferred base and the sanitized configured candidates; when
the candidate list keeps the empty (relative) base as its one blank, last
entry — as `API_BASE_CANDIDATES` does — the attempt order also ends with
it. A success is the first candidate whose response is OK (everything
tried before it failed retryably) and makes that candidate the new
preferred base; an abort propagates with only retryable failures before it
and leaves the preferred base unchanged; if every candidate fails the
result carries the last observed error. -/
theorem fetchFromApi_retry_semantics (oracle : String → FetchOutcome)
    (path preferred : String) (candidates : List String) :
    (getApiBaseAttemptOrder preferred candidates).head? =
        some (sanitizeBase preferred) ∧
    (getApiBaseAttemptOrder preferred candidates).Nodup ∧
    (∀ b, b ∈ getApiBaseAttemptOrder preferred candidates ↔
      (b = sanitizeBase preferred ∨ ∃ c ∈ candidates, sanitizeBase c = b)) ∧
    (sanitizeBase preferred ≠ "" →
      candidates.map sanitizeBase = (candidates.map sanitizeBase).dropLast ++ [""] →
      (∀ b ∈ (candidates.map sanitizeBase).dropLast, b ≠ "") →
      (getApiBaseAttemptOrder preferred candidates).getLast? = some "") ∧
    (∀ b, (fetchFromApi oracle path preferred candidates).1 = .success b →
      oracle b = .ok ∧ (fetchFromApi oracle path preferred candidates).2 = b ∧
      ∃ pre post, getApiBaseAttemptOrder preferred candidates = pre ++ b :: post ∧
        ∀ x ∈ pre, isAdvance (oracle x)) ∧
    ((fetchFromApi oracle path preferred candidates).1 = .aborted →
      (fetchFromApi oracle path preferred candidates).2 = preferred ∧
      ∃ pre x post, getApiBaseAttemptOrder preferred candidates = pre ++ x :: post ∧
        oracle x = .abortErr ∧ ∀ y ∈ pre, isAdvance (oracle y)) ∧
    (∀ le, (fetchFromApi oracle path preferred candidates).1 = .failed le →
      (fetchFromApi oracle path preferred candidates).2 = preferred ∧
      (∀ x ∈ getApiBaseAttemptOrder preferred candidates, isAdvance (oracle x)) ∧
      le = lastErrorAfter oracle path
        (getApiBaseAttemptOrder preferred candidates) none) := by
  have hstep : getApiBaseAttemptOrder preferred candidates =
      dedupAppend [sanitizeBase preferred] (candidates.map sanitizeBase) := by
    rw [getApiBaseAttemptOrder]
    simp [dedupAppend]
  refine ⟨?_, ?_, ?_, ?_, ?_, ?_, ?_⟩
  · rw [hstep]
    obtain ⟨suffix, hs⟩ :=
      dedupAppend_prefix (candidates.map sanitizeBase) [sanitizeBase preferred]
    rw [hs]
    rfl
  · exact dedupAppend_nodup _ [] (by simp)
  · intro b
    rw [getApiBaseAttemptOrder, dedupAppend_mem]
    simp [List.mem_map, eq_comm]
  · intro hnp hshape hne
    rw [hstep]
    have hnotin : "" ∉ [sanitizeBase preferred] := by
      simp only [List.mem_singleton]
      exact fun h => hnp h.symm
    rw [show candidates.map sanitizeBase =
        (candidates.map sanitizeBase).dropLast ++ [""] from hshape]
    rw [dedupAppend_empty_last _ hne _ hnotin]
    simp
  · intro b hb
    rcases hres : fetchAttempts oracle path
        (getApiBaseAttemptOrder preferred candidates) none with b' | _ | le2
    · simp only [fetchFromApi, hres] at hb ⊢
      have hbb : b' = b := by simpa using hb
      obtain ⟨hok, pre, post, hdec, hadv⟩ :=
        fetchAttempts_success oracle path _ none b' hres
      rw [hbb] at hok hdec
      exact ⟨hok, hbb, pre, post, hdec, hadv⟩
    · simp only [fetchFromApi, hres] at hb
      simp at hb
    · simp only [fetchFromApi, hres] at hb
      simp at hb
  · intro hb
    rcases hres : fetchAttempts oracle path
        (getApiBaseAttemptOrder preferred candidates) none with b' | _ | le2
    · simp only [fetchFromApi, hres] at hb
      simp at hb
    · simp only [fetchFromApi, hres] at hb ⊢
      exact ⟨trivial, fetchAttempts_aborted oracle path _ none hres⟩
    · simp only [fetchFromApi, hres] at hb
      simp at hb
  · intro le hb
    rcases hres : fetchAttempts oracle path
        (getApiBaseAttemptOrder preferred candidates) none with b' | _ | le2
    · simp only [fetchFromApi, hres] at hb
      simp at hb
    · simp only [fetchFromApi, hres] at hb
      simp at hb
    · simp only [fetchFromApi, hres] at hb ⊢
      have hle : le2 = le := by simpa using hb
      obtain ⟨hall, heq⟩ := fetchAttempts_failed oracle path _ none le2 hres
      rw [hle] at heq
      exact ⟨trivial, hall, heq⟩

/-- C3 witness: with the development candidate set (primary base and its
`/api` variant, relative base last) and a network where the primary base
returns HTTP 500 but the `/api` variant succeeds, the request succeeds at
the second candidate and the preferred base sticks to it; the attempt
order ends with the relative base. -/
theorem fetchFromApi_retry_semantics_witness :
    (getApiBaseAttemptOrder "http://localhost:3000"
        (buildApiBaseCandidates "http://localhost:3000" none)).getLast? =
      some "" ∧
    (fetchFromApi
        (fun b => if b = "http://localhost:3000" then FetchOutcome.httpFail 500
          else FetchOutcome.ok)
        "/map" "http://localhost:3000"
        (buildApiBaseCandidates "http://localhost:3000" none)).2 =
      "http://localhost:3000/api" :=
  ⟨(fetchFromApi_retry_semantics
      (fun b => if b = "http://localhost:3000" then FetchOutcome.httpFail 500
        else FetchOutcome.ok)
      "/map" "http://localhost:3000"
      (buildApiBaseCandidates "http://localhost:3000" none)).2.2.2.1
      (by decide) (by decide) (by decide),
   ((fetchFromApi_retry_semantics
      (fun b => if b = "http://localhost:3000" then FetchOutcome.httpFail 500
        else FetchOutcome.ok)
      "/map" "http://localhost:3000"
      (buildApiBaseCandidates "http://localhost:3000" none)).2.2.2.2.1
      "http://localhost:3000/api" (by decide)).2.1⟩

end RelationshipMap
